import Mathlib

/-!
Verification development for the `task.md` repository: a shallow embedding of
the Markdown task parser (`parser.js`), linter (`linter.js`), serializer
(`serializer.js`), sorting/query utilities (`utils.js`) and the query
evaluator / mutation commands of `cli.js`, together with theorems settling
the specification claims about them.

Strings are modelled as lists of characters (`Str`); JavaScript objects with
ordered string keys are modelled as ordered association lists (`Dict`);
JavaScript's dynamically typed field values are modelled by the sum type
`Value`.  JS numbers are modelled as integers: the fragment of `Number`
coercion exercised by this code base is integer numerals (decimal-point and
exponent forms do not occur in the claims below and are treated as opaque
strings by the model).
-/

set_option maxRecDepth 10000

namespace TaskMd

/-- Strings are lists of characters. -/
abbrev Str := List Char

/-- Injection of Lean string literals into the model. -/
def S (s : String) : Str := s.data

/-- The double-quote character. -/
def qD : Char := Char.ofNat 34

/-- The single-quote character. -/
def qS : Char := Char.ofNat 39

/-- The backtick character. -/
def qB : Char := Char.ofNat 96

/-- JS whitespace (`\s`), restricted to the characters that occur in lines of
a task file (space, tab, CR, LF). -/
def isWsCh (c : Char) : Bool := c = ' ' || c = '\t' || c = '\n' || c = '\r'

/-- JS `line.replace(/\t/g, '  ')`. -/
def replaceTabs : Str → Str
  | [] => []
  | c :: cs => if c = '\t' then ' ' :: ' ' :: replaceTabs cs else c :: replaceTabs cs

/-- Drop leading JS whitespace. -/
def trimL : Str → Str
  | [] => []
  | c :: cs => if isWsCh c then trimL cs else c :: cs

/-- Drop trailing JS whitespace. -/
def trimR (s : Str) : Str := (trimL s.reverse).reverse

/-- JS `String.prototype.trim`. -/
def trim (s : Str) : Str := trimR (trimL s)

/-- Length of the leading whitespace run: `line.match(/^(\s*)/)[1].length`. -/
def indentOf : Str → Nat
  | [] => 0
  | c :: cs => if isWsCh c then indentOf cs + 1 else 0

/-- JS `s.startsWith(c)` for a single-character argument. -/
def startsWithCh (s : Str) (c : Char) : Bool :=
  match s with
  | [] => false
  | d :: _ => d = c

/-- JS `s.endsWith(c)` for a single-character argument. -/
def endsWithCh (s : Str) (c : Char) : Bool := startsWithCh s.reverse c

/-- Decimal digit test (`[0-9]`). -/
def isDigitCh (c : Char) : Bool := '0' ≤ c && c ≤ '9'

/-- ASCII letter test (`[A-Za-z]`). -/
def isAlphaCh (c : Char) : Bool := ('a' ≤ c && c ≤ 'z') || ('A' ≤ c && c ≤ 'Z')

/-- Character class `[A-Za-z0-9_-]` of identifier-continuation characters used
by the `key` pattern and by tag/stakeholder validation. -/
def isIdentCh (c : Char) : Bool := isAlphaCh c || isDigitCh c || c = '_' || c = '-'

/-- First character class `[A-Za-z_]` of the `key` pattern. -/
def isKeyStartCh (c : Char) : Bool := isAlphaCh c || c = '_'

/-- Numeric value of a string of decimal digits. -/
def digitsVal (s : Str) : Nat := s.foldl (fun a c => a * 10 + (c.toNat - 48)) 0

/-- JS `Number(s)` restricted to the integer-numeral fragment used by this
code base: optional sign followed by decimal digits (and the whitespace-only
strings, which `Number` maps to `0`).  `none` stands for `NaN`. -/
def jsNum? (s : Str) : Option Int :=
  let t := trim s
  if t = [] then some 0
  else
    match t with
    | '-' :: ds => if ds ≠ [] && ds.all isDigitCh then some (-(digitsVal ds : Int)) else none
    | '+' :: ds => if ds ≠ [] && ds.all isDigitCh then some (digitsVal ds : Int) else none
    | ds => if ds.all isDigitCh then some (digitsVal ds : Int) else none

/-- Decimal digit character for a value `< 10`. -/
def digitCh (d : Nat) : Char := Char.ofNat (48 + d)

/-- Decimal digits of a natural number (auxiliary, fuel-driven). -/
def natToStrAux : Nat → Nat → Str
  | 0, _ => []
  | fuel + 1, n => if n < 10 then [digitCh n] else natToStrAux fuel (n / 10) ++ [digitCh (n % 10)]

/-- Decimal representation of a natural number. -/
def natToStr (n : Nat) : Str := natToStrAux (n + 1) n

/-- Decimal representation of an integer (JS `String(number)` on integers). -/
def intToStr (n : Int) : Str :=
  if n < 0 then '-' :: natToStr n.natAbs else natToStr n.natAbs

/-- Dynamically typed JS field values: strings, (integer) numbers, booleans
and arrays of strings (`tags` / `stakeholders`). -/
inductive Value : Type where
  | str (s : Str)
  | num (n : Int)
  | bool (b : Bool)
  | arr (xs : List Str)
deriving DecidableEq, Repr

/-- JS `String(v)` (array values stringify as their comma-join). -/
def jsToStr : Value → Str
  | .str s => s
  | .num n => intToStr n
  | .bool b => if b then S "true" else S "false"
  | .arr xs => (xs.intersperse (S ",")).flatten

/-- JS truthiness of a possibly absent value (`undefined`, `''`, `0` and
`false` are falsy). -/
def jsFalsy : Option Value → Bool
  | none => true
  | some (.str s) => s = []
  | some (.num n) => n = 0
  | some (.bool b) => !b
  | some (.arr _) => false

/-- An ordered JS object: association list in key-insertion order. -/
abbrev Dict := List (Str × Value)

/-- Object property read `d[k]` (first binding wins; keys are unique by
construction of `dset`). -/
def dget (d : Dict) (k : Str) : Option Value :=
  match d with
  | [] => none
  | (k', v) :: rest => if k' = k then some v else dget rest k

/-- Object property write `d[k] = v`: updates the existing binding in place
(JS objects keep the original insertion position) or appends a new one. -/
def dset (d : Dict) (k : Str) (v : Value) : Dict :=
  match d with
  | [] => [(k, v)]
  | (k', v') :: rest => if k' = k then (k', v) :: rest else (k', v') :: dset rest k v

/-- Key-membership test (`hasOwnProperty`). -/
def dhas (d : Dict) (k : Str) : Bool := (dget d k).isSome

/-! ### parser.js: tokenizer and value parsing -/

/-- Quoted-token test of `isQuotedString` / `parseValueToken`: the token both
starts and ends with a double quote, or both starts and ends with a backtick
(a single `"` or a single backtick passes, as in JS). -/
def isQuotedString (tok : Str) : Bool :=
  (startsWithCh tok qD && endsWithCh tok qD) || (startsWithCh tok qB && endsWithCh tok qB)

/-- JS `tok.slice(1, -1)`. -/
def slice1m1 (tok : Str) : Str := (tok.drop 1).dropLast

/-- `stripQuotes` from parser.js. -/
def stripQuotes (tok : Str) : Str :=
  if isQuotedString tok then slice1m1 tok else tok

/-- `parseValueToken` from parser.js: strip quotes, else recognize booleans,
else numbers, else keep the (trimmed) string. -/
def parseValueToken (tok0 : Str) : Value :=
  if tok0 = [] then .str []
  else
    let tok := trim tok0
    if isQuotedString tok then .str (slice1m1 tok)
    else if tok = S "true" then .bool true
    else if tok = S "false" then .bool false
    else
      match jsNum? tok with
      | some n => .num n
      | none => .str tok

/-- Separator test of `tokenizeRespectingQuotes` (commas and whitespace split
tokens outside quotes). -/
def isSepCh (c : Char) : Bool := c = ',' || isWsCh c

/-- Loop body of `tokenizeRespectingQuotes` (parser.js): state is the
remaining input, the current token accumulator and the two quote-mode flags.
The fuel argument bounds the number of steps; `tokenizeRespectingQuotes`
supplies enough fuel for the whole input. -/
def tokenizeAux : Nat → Str → Str → Bool → Bool → List Str
  | _, [], cur, _, _ => if trim cur ≠ [] then [trim cur] else []
  | 0, _ :: _, _, _, _ => []
  | fuel + 1, c :: cs, cur, inD, inB =>
    if c = qD && !inB then
      if inD then trim (cur ++ [qD]) :: tokenizeAux fuel cs [] false inB
      else tokenizeAux fuel cs (cur ++ [qD]) true inB
    else if c = qB && !inD then
      if inB then trim (cur ++ [qB]) :: tokenizeAux fuel cs [] inD false
      else tokenizeAux fuel cs (cur ++ [qB]) inD true
    else if !inD && !inB && isSepCh c then
      let rest := cs.dropWhile isSepCh
      if trim cur ≠ [] then trim cur :: tokenizeAux fuel rest [] inD inB
      else tokenizeAux fuel rest [] inD inB
    else tokenizeAux fuel cs (cur ++ [c]) inD inB

/-- `tokenizeRespectingQuotes` from parser.js. -/
def tokenizeRespectingQuotes (s : Str) : List Str := tokenizeAux s.length s [] false false

/-- Leading `[A-Za-z_][A-Za-z0-9_-]*:` match: returns the key and the rest
after the colon, or `none`. -/
def keyColon? (s : Str) : Option (Str × Str) :=
  match s with
  | [] => none
  | c :: cs =>
    if isKeyStartCh c then
      let run := cs.takeWhile isIdentCh
      let rest := cs.drop run.length
      match rest with
      | ':' :: rest' => some (c :: run, rest')
      | _ => none
    else none

/-- Value alternative of the inline pair pattern
`` (`[^`]*`|"[^"]*"|[^\s,]+) `` tried at the start of `s`: a backtick-quoted
chunk, else a double-quoted chunk, else a maximal nonempty run of
non-whitespace non-comma characters (an unclosed quote falls through to the
bare-run alternative, as the regex engine would). -/
def kvValue? (s : Str) : Option (Str × Str) :=
  let bare : Option (Str × Str) :=
    let run := s.takeWhile (fun c => !isWsCh c && c ≠ ',')
    if run = [] then none else some (run, s.drop run.length)
  match s with
  | [] => none
  | c :: cs =>
    if c = qB then
      let inner := cs.takeWhile (fun d => d ≠ qB)
      match cs.drop inner.length with
      | d :: rest => if d = qB then some (qB :: inner ++ [qB], rest) else bare
      | [] => bare
    else if c = qD then
      let inner := cs.takeWhile (fun d => d ≠ qD)
      match cs.drop inner.length with
      | d :: rest => if d = qD then some (qD :: inner ++ [qD], rest) else bare
      | [] => bare
    else bare

/-- Attempt to match the full inline pair pattern
`` ([A-Za-z_][A-Za-z0-9_-]*):\s*(`[^`]*`|"[^"]*"|[^\s,]+) `` at the start of
`s`; on success returns key, value token and the rest of the input after the
match. -/
def kvMatchHere? (s : Str) : Option (Str × Str × Str) :=
  match keyColon? s with
  | none => none
  | some (k, rest) =>
    let rest' := rest.dropWhile isWsCh
    match kvValue? rest' with
    | none => none
    | some (v, rest'') => some (k, v, rest'')

/-- Global scan of `kvRegex` over a string, as the repeated
`kvRegex.exec(restStr)` loop of `parseBulletLineInline` does: at each position
try to match the pair pattern, consume the match on success, advance one
character on failure. -/
def kvScanAux : Nat → Str → List (Str × Str)
  | _, [] => []
  | 0, _ => []
  | fuel + 1, s =>
    match kvMatchHere? s with
    | some (k, v, rest) => (k, v) :: kvScanAux fuel rest
    | none => kvScanAux fuel (s.drop 1)

/-- Inline `key: value` pairs found in a string by the `kvRegex` loop. -/
def kvScan (s : Str) : List (Str × Str) := kvScanAux s.length s

/-- Priority-letter test `/^[A-D]$/`. -/
def isPriorityLetter (tok : Str) : Bool :=
  match tok with
  | [c] => 'A' ≤ c && c ≤ 'D'
  | _ => false

/-- Append a tag to the node's `tags` array, mirroring
`if (!node.data.tags) node.data.tags = []; node.data.tags.push(...)`
(only arrays ever reach the push in this flow). -/
def pushTag (d : Dict) (t : Str) : Dict :=
  let cur := match dget d (S "tags") with
    | some (.arr xs) => xs
    | _ => []
  dset d (S "tags") (.arr (cur ++ [t]))

/-- Prefix-macro loop of `parseBulletLineInline`: scans tokens until the
first one containing a colon, recording completion/skip markers, the priority
letter, the (singular, last-wins) `stakeholder`, tags, and the first quoted
string as the title; returns the updated data and the remaining tokens. -/
def pblLoop : List Str → Dict → Dict × List Str
  | [], d => (d, [])
  | tok :: rest, d =>
    if tok.contains ':' then (d, tok :: rest)
    else if isQuotedString tok then
      let d' := if jsFalsy (dget d (S "title")) then dset d (S "title") (.str (stripQuotes tok)) else d
      pblLoop rest d'
    else if tok = S "x" then pblLoop rest (dset d (S "completed") (.bool true))
    else if tok = S "-" then pblLoop rest (dset d (S "skipped") (.bool true))
    else if isPriorityLetter tok then pblLoop rest (dset d (S "priority") (.str tok))
    else if startsWithCh tok '@' then pblLoop rest (dset d (S "stakeholder") (.str (tok.drop 1)))
    else if startsWithCh tok '#' then pblLoop rest (pushTag d (tok.drop 1))
    else pblLoop rest d

/-- `tokens.join(' ')`. -/
def joinSp (toks : List Str) : Str := (toks.intersperse (S " ")).flatten

/-- `parseBulletLineInline` from parser.js applied to the text after the
bullet dash: returns the node's `data` map (the caller stores `afterDash`
itself as the node's `inline` origin hint). -/
def parseBulletLineInline (afterDash : Str) : Dict :=
  let toks := tokenizeRespectingQuotes afterDash
  let (d, rest) := pblLoop toks []
  (kvScan (joinSp rest)).foldl (fun acc kv => dset acc kv.1 (parseValueToken kv.2)) d

/-! ### parser.js: tree construction -/

/-- A task node: the parsed `data` map, the node's `id` (a raw JS value -- after
the parent pass it is whatever `data.id` holds), the in-memory `parent`
back-reference, the parse-time `indent`, the `inline` origin hint (the text
after the dash; the empty string is JS-falsy and biases serialization to the
multi-line shape) and the owned children.  The bookkeeping fields
`sourceLineIndex` / `originalLine` of the JS object are not used by any
component modelled here and are omitted. -/
inductive Task : Type where
  | mk (data : Dict) (idv : Value) (parent : Option Value) (indent : Nat)
      (inline : Str) (children : List Task)

/-- The `data` field of a task node. -/
def Task.data : Task → Dict
  | .mk d _ _ _ _ _ => d

/-- The `id` field of a task node. -/
def Task.idv : Task → Value
  | .mk _ i _ _ _ _ => i

/-- The `parent` field of a task node (`none` is JS `null`). -/
def Task.parent : Task → Option Value
  | .mk _ _ p _ _ _ => p

/-- The `indent` field of a task node. -/
def Task.indent : Task → Nat
  | .mk _ _ _ n _ _ => n

/-- The `inline` field of a task node. -/
def Task.inline : Task → Str
  | .mk _ _ _ _ s _ => s

/-- The `children` of a task node. -/
def Task.children : Task → List Task
  | .mk _ _ _ _ _ c => c

/-- The identity sub-object hashed by `ensureIdOnNode`: `title ?? ''`,
`tags ?? []`, `priority ?? null`, `stakeholder ?? null`, `due ?? null`. -/
structure Identity : Type where
  title : Value
  tags : Value
  priority : Option Value
  stakeholder : Option Value
  due : Option Value
deriving DecidableEq

/-- Identity sub-object of a data map. -/
def identityOf (d : Dict) : Identity where
  title := (dget d (S "title")).getD (.str [])
  tags := (dget d (S "tags")).getD (.arr [])
  priority := dget d (S "priority")
  stakeholder := dget d (S "stakeholder")
  due := dget d (S "due")

/-- `ensureIdOnNode` from parser.js: a truthy `data.id` is adopted verbatim
(the node's `id` becomes its string form), otherwise a deterministic id is
computed from the identity fields and stored both in `data.id` and in the
node's `id`.  The digest itself (`computeDeterministicId`, a sha1 of the
canonical JSON of the identity object via Node's `crypto` library) is an
external primitive and is threaded through as the parameter `computeId`. -/
def ensureIdOnNode (computeId : Identity → Str) (d : Dict) : Dict × Value :=
  if !jsFalsy (dget d (S "id")) then
    (d, .str (jsToStr ((dget d (S "id")).getD (.str []))))
  else
    let i := computeId (identityOf d)
    (dset d (S "id") (.str i), .str i)

/-- Anchored continuation-line pattern
`^([A-Za-z_][A-Za-z0-9_-]*):\s*(.*)$` applied to a trimmed line: returns the
key and the value (the rest of the line after the colon and any following
whitespace). -/
def kvLineMatch (s : Str) : Option (Str × Str) :=
  match keyColon? s with
  | none => none
  | some (k, rest) => some (k, rest.dropWhile isWsCh)

/-- Multi-line block consumption of the parser (`val === '|'` branch): blank
lines contribute empty strings, lines indented deeper than the key line
contribute the line minus `blockIndent + 2` characters, and the block ends at
the first non-blank line whose indent returns to the key line's level.
Returns the collected content lines and the remaining input. -/
def collectBlock (blockIndent : Nat) : List Str → List Str × List Str
  | [] => ([], [])
  | l :: rest =>
    let contRaw := replaceTabs l
    let contTrim := trim contRaw
    if contTrim = [] then
      let (c, r) := collectBlock blockIndent rest
      ([] :: c, r)
    else if indentOf contRaw ≤ blockIndent then ([], l :: rest)
    else
      let (c, r) := collectBlock blockIndent rest
      (contRaw.drop (blockIndent + 2) :: c, r)

/-- Join with newlines (`collected.join('\n')`). -/
def joinNl (xs : List Str) : Str := (xs.intersperse [(Char.ofNat 10)]).flatten

/-- Continuation-line consumption of the parser's main loop: key/value lines
indented deeper than the bullet are merged into the node's data (a `|` value
consuming an indented block), and the loop stops at blank-exhaustion, at any
bullet line, at a shallower line or at a non-key line.  Fuel bounds the number
of consumed lines. -/
def consumeCont (computeId : Identity → Str) : Nat → Nat → List Str → Dict → Dict × List Str
  | _, _, [], d => (d, [])
  | 0, _, lines, d => (d, lines)
  | fuel + 1, indent, l :: rest, d =>
    let nextRaw := replaceTabs l
    let nextTrim := trim nextRaw
    if nextTrim = [] then consumeCont computeId fuel indent rest d
    else if startsWithCh nextTrim '-' then (d, l :: rest)
    else if indentOf nextRaw > indent then
      match kvLineMatch nextTrim with
      | some (k, v) =>
        if v = ['|'] then
          let blockIndent := indentOf nextRaw
          let (collected, rest') := collectBlock blockIndent rest
          consumeCont computeId fuel indent rest' (dset d k (.str (joinNl collected)))
        else consumeCont computeId fuel indent rest (dset d k (parseValueToken v))
      | none => (d, l :: rest)
    else (d, l :: rest)

/-- A frame of the parser's indentation stack: the indent of an open bullet,
its finished data / id / inline fields, and the children collected so far. -/
structure Frame : Type where
  indent : Nat
  data : Dict
  idv : Value
  inline : Str
  kids : List Task

/-- Close a stack frame into a task node (`parent` is assigned by the later
`setParents` pass). -/
def closeFrame (f : Frame) : Task :=
  .mk f.data f.idv none f.indent f.inline f.kids

/-- Auxiliary popping loop carrying the node closed by the previous pop: it
is attached to the children of the next surviving frame, or becomes a root. -/
def popFramesAux (indent : Nat) (t : Task) : List Frame → List Task → List Frame × List Task
  | [], roots => ([], roots ++ [t])
  | g :: gs, roots =>
    if indent ≤ g.indent then
      popFramesAux indent (closeFrame { g with kids := g.kids ++ [t] }) gs roots
    else ({ g with kids := g.kids ++ [t] } :: gs, roots)

/-- Pop all frames whose indent is `≥ indent`, attaching each closed node to
the next frame's children (or to the root list).  This realizes the same tree
as the JS loop, which attaches a node to its parent's `children` at creation
time through object references. -/
def popFrames (indent : Nat) (fs : List Frame) (roots : List Task) : List Frame × List Task :=
  match fs with
  | [] => ([], roots)
  | f :: fs' =>
    if indent ≤ f.indent then popFramesAux indent (closeFrame f) fs' roots
    else (fs, roots)

/-- Pop every remaining frame at end of input. -/
def popAll (fs : List Frame) (roots : List Task) : List Task :=
  (popFrames 0 fs roots).2

/-- Main parsing loop of `parseFileToTree`: skip non-bullet lines, then for
each bullet parse its inline content, consume its continuation lines, place
it in the tree by indentation, and assign its id.  Fuel bounds the number of
loop iterations (each consumes at least one line). -/
def parseLoop (computeId : Identity → Str) : Nat → List Str → List Frame → List Task → List Task
  | _, [], fs, roots => popAll fs roots
  | 0, _, fs, roots => popAll fs roots
  | fuel + 1, l :: rest, fs, roots =>
    let line := replaceTabs l
    let trimmed := trim line
    if !startsWithCh trimmed '-' then parseLoop computeId fuel rest fs roots
    else
      let indent := indentOf line
      let afterDash := trim (trimmed.drop 1)
      let data0 := parseBulletLineInline afterDash
      let (data1, rest') := consumeCont computeId rest.length indent rest data0
      let (fs', roots') := popFrames indent fs roots
      let (data2, idv) := ensureIdOnNode computeId data1
      parseLoop computeId fuel rest' (⟨indent, data2, idv, afterDash, []⟩ :: fs') roots'

mutual

/-- Parent-assignment pass (`setParents` inside `parseFileToTree`): stores the
enclosing node's id (or `null`), re-runs `ensureIdOnNode` on nodes with a
falsy id, and then normalizes the node's `id` to `data.id`. -/
def setParentsNode (computeId : Identity → Str) (parentId : Option Value) : Task → Task
  | .mk data idv _ indent inline children =>
    let (data', _) := if jsFalsy (some idv) then ensureIdOnNode computeId data else (data, idv)
    let newId := (dget data' (S "id")).getD (.str [])
    .mk data' newId parentId indent inline (setParentsKids computeId (some newId) children)

/-- Parent-assignment pass over a list of siblings. -/
def setParentsKids (computeId : Identity → Str) (parentId : Option Value) : List Task → List Task
  | [] => []
  | t :: ts => setParentsNode computeId parentId t :: setParentsKids computeId parentId ts

end

/-- `parseFileToTree` from parser.js, on an already-loaded line list and with
linting factored out (the CLI lints first and aborts on errors): parse the
bullet forest, then assign parents.  Returns the root tasks. -/
def parseLinesToTree (computeId : Identity → Str) (lines : List Str) : List Task :=
  setParentsKids computeId none (parseLoop computeId (lines.length + 1) lines [] [])

/-! ### serializer.js -/

/-- Newline character. -/
def nlCh : Char := Char.ofNat 10

/-- Split on runs of whitespace (`line.split(/\s+/)`), keeping the empty
fields that JS produces at a leading or trailing separator. -/
def splitWsAux : Nat → Str → Str → List Str
  | _, [], cur => [cur]
  | 0, _, cur => [cur]
  | fuel + 1, c :: cs, cur =>
    if isWsCh c then cur :: splitWsAux fuel (cs.dropWhile isWsCh) []
    else splitWsAux fuel cs (cur ++ [c])

/-- JS `line.split(/\s+/)`. -/
def splitWs (s : Str) : List Str := splitWsAux s.length s []

/-- Greedy fill loop of `wrapText` over the words of one overlong line. -/
def wrapWords (maxWidth : Nat) : List Str → Str → List Str
  | [], cur => if cur ≠ [] then [cur] else []
  | w :: ws, cur =>
    if cur.length + w.length + 1 ≤ maxWidth then
      wrapWords maxWidth ws (if cur ≠ [] then cur ++ [' '] ++ w else w)
    else
      if cur ≠ [] then cur :: wrapWords maxWidth ws w
      else wrapWords maxWidth ws w

/-- `s.split('\n')`. -/
def splitNl (s : Str) : List Str := s.splitOn nlCh

/-- `wrapText` from serializer.js: split at existing newlines, keep short
lines, and greedily re-wrap overlong lines at `maxWidth`. -/
def wrapText (text : Str) (maxWidth : Nat) : List Str :=
  (splitNl text).flatMap fun line =>
    if line.length ≤ maxWidth then [line] else wrapWords maxWidth (splitWs line) []

/-- Keys whose (possibly long) values never force the multi-line shape. -/
def longExemptKeys : List Str :=
  [S "title", S "id", S "tags", S "completed", S "skipped", S "priority",
   S "stakeholders", S "stakeholder"]

/-- A string value that the serializer considers long (embedded newline or
more than 25 characters). -/
def isLongStr : Value → Bool
  | .str s => s.contains nlCh || s.length > 25
  | _ => false

/-- `hasLongValues` of `writeNode`. -/
def hasLongValues (d : Dict) : Bool :=
  d.any fun kv => !(longExemptKeys.contains kv.1) && isLongStr kv.2

/-- Prefix tokens emitted in front of a task line: completion / skip markers,
priority, `@stakeholders`, `#tags` and the singular `@stakeholder`. -/
def buildPrefixTokens (d : Dict) : List Str :=
  (if dget d (S "completed") = some (.bool true) then [S "[x]"] else []) ++
  (if dget d (S "completed") = some (.bool false) then [S "[_]"] else []) ++
  (if !jsFalsy (dget d (S "skipped")) then [S "[-]"] else []) ++
  (if !jsFalsy (dget d (S "priority")) then [jsToStr ((dget d (S "priority")).getD (.str []))] else []) ++
  (match dget d (S "stakeholders") with
   | some (.arr (x :: xs)) => ('@' :: x) :: (xs.map ('@' :: ·))
   | _ => []) ++
  (match dget d (S "tags") with
   | some (.arr (x :: xs)) => ('#' :: x) :: (xs.map ('#' :: ·))
   | _ => []) ++
  (if !jsFalsy (dget d (S "stakeholder")) then
     [('@' :: jsToStr ((dget d (S "stakeholder")).getD (.str [])))] else [])

/-- Title emitted as a quoted string, choosing the backtick when the title
contains a double quote. -/
def quoteTitle (title : Str) : Str :=
  let q := if title.contains qD then qB else qD
  q :: title ++ [q]

/-- Replace every double quote by a backslash-escaped one
(`v.replace(/"/g, '\\"')`). -/
def escapeDQ : Str → Str
  | [] => []
  | c :: cs => if c = qD then '\\' :: qD :: escapeDQ cs else c :: escapeDQ cs

/-- Scalar rendering `sval` of the serializer: strings containing whitespace
are double-quoted with embedded double quotes escaped, anything else is its
JS string form. -/
def scalarSVal (v : Value) : Str :=
  match v with
  | .str s => if s.any isWsCh then qD :: escapeDQ s ++ [qD] else s
  | _ => jsToStr v

/-- Keys excluded from the single-line `key: value` section. -/
def inlineSkipKeys : List Str :=
  [S "completed", S "skipped", S "priority", S "stakeholders", S "stakeholder",
   S "tags", S "title", S "id"]

/-- Indentation of `level` levels at `isz` spaces per level. -/
def indentSp (isz level : Nat) : Str := List.replicate (level * isz) ' '

/-- `arr.join(',')`. -/
def joinComma (xs : List Str) : Str := (xs.intersperse (S ",")).flatten

/-- Nonempty-array test (`Array.isArray(v) && v.length`). -/
def isNonemptyArr : Value → Bool
  | .arr (_ :: _) => true
  | _ => false

/-- Items of an array value. -/
def arrItems : Value → List Str
  | .arr xs => xs
  | _ => []

mutual

/-- `writeNode` from serializer.js: emit one node (single-line or multi-line
shape) followed by its recursively serialized children. -/
def serNode (isz : Nat) (level : Nat) : Task → List Str
  | .mk d _ _ _ inline children =>
    let ind := indentSp isz level
    let useMulti := hasLongValues d || inline = []
    let prefixes := buildPrefixTokens d
    let head :=
      if !useMulti then
        let parts := prefixes ++
          (if !jsFalsy (dget d (S "title")) then
             [quoteTitle (jsToStr ((dget d (S "title")).getD (.str [])))] else []) ++
          ((d.filter fun kv => !(inlineSkipKeys.contains kv.1) && !isLongStr kv.2).map
            fun kv => kv.1 ++ ':' :: ' ' :: scalarSVal kv.2) ++
          (if !jsFalsy (dget d (S "id")) then
             [S "id: " ++ jsToStr ((dget d (S "id")).getD (.str []))] else [])
        [ind ++ S "- " ++ joinSp parts]
      else
        let firstParts := prefixes ++
          (if !jsFalsy (dget d (S "title")) then
             [quoteTitle (jsToStr ((dget d (S "title")).getD (.str [])))] else []) ++
          (if !jsFalsy (dget d (S "id")) then
             [S "id: " ++ jsToStr ((dget d (S "id")).getD (.str []))] else [])
        (ind ++ S "- " ++ joinSp firstParts) ::
        (d.flatMap fun kv =>
          if kv.1 = S "title" || kv.1 = S "id" then []
          else if kv.1 = S "tags" && isNonemptyArr kv.2 then
            [ind ++ indentSp isz 1 ++ kv.1 ++ ':' :: ' ' :: qD :: joinComma (arrItems kv.2) ++ [qD]]
          else if kv.1 = S "stakeholders" && isNonemptyArr kv.2 then
            [ind ++ indentSp isz 1 ++ kv.1 ++ ':' :: ' ' :: qD :: joinComma (arrItems kv.2) ++ [qD]]
          else if kv.1 = S "stakeholder" then []
          else if isLongStr kv.2 then
            (ind ++ indentSp isz 1 ++ kv.1 ++ [':', ' ', '|']) ::
            (wrapText (jsToStr kv.2) 80).map (fun l => ind ++ indentSp isz 2 ++ l)
          else [ind ++ indentSp isz 1 ++ kv.1 ++ ':' :: ' ' :: scalarSVal kv.2])
    head ++ serKids isz (level + 1) children

/-- Serialize a list of sibling nodes. -/
def serKids (isz : Nat) (level : Nat) : List Task → List Str
  | [] => []
  | t :: ts => serNode isz level t ++ serKids isz level ts

end

/-- `serializeTasksToLines` from serializer.js. -/
def serializeTasksToLines (isz : Nat) (roots : List Task) : List Str :=
  serKids isz 0 roots

/-! ### utils.js: flattening and sorting -/

mutual

/-- Flattening walk of `collectTasks`: every node is listed pre-order with its
`parent` field set to the enclosing node's id (`null` for roots).  The JS
function mutates the tree nodes in place through shared references; the model
rebuilds the same values. -/
def collectNode (pid : Option Value) : Task → List Task
  | .mk d i _ n inl c => Task.mk d i pid n inl c :: collectKids (some i) c

/-- Flattening walk over siblings. -/
def collectKids (pid : Option Value) : List Task → List Task
  | [] => []
  | t :: ts => collectNode pid t ++ collectKids pid ts

end

/-- `collectTasks` from utils.js. -/
def collectTasks (roots : List Task) : List Task := collectKids none roots

/-- `getSortValue` from utils.js: `parent` maps to the parent id or the empty
string, then the `data` map, then own top-level properties.  (The remaining
top-level properties of a JS node -- `children` and `data` itself -- are
objects, not sortable scalars, and never appear as sort keys; they are
omitted from the fallback.) -/
def getSortValue (t : Task) (k : Str) : Option Value :=
  if k = S "parent" then some (t.parent.getD (.str []))
  else
    match dget t.data k with
    | some v => some v
    | none =>
      if k = S "id" then some t.idv
      else if k = S "indent" then some (.num t.indent)
      else if k = S "inline" then some (.str t.inline)
      else none

/-- JS `<` on strings: lexicographic comparison of code units. -/
def strLt : Str → Str → Bool
  | [], [] => false
  | [], _ :: _ => true
  | _ :: _, [] => false
  | a :: as, b :: bs => if a < b then true else if b < a then false else strLt as bs

/-- One sort key of `multiKeySort`: field name and direction string
(anything other than `desc` counts as ascending). -/
structure SortKey : Type where
  key : Str
  dir : Str

/-- Direction factor `spec.dir === 'desc' ? -1 : 1`. -/
def sortDirInt (d : Str) : Int := if d = S "desc" then -1 else 1

/-- The comparator `cmp` of `multiKeySort`: per key, tasks missing the field
order before tasks having it (times the direction factor), numbers compare
numerically when both values are numbers, anything else compares as strings;
ties fall to the next key. -/
def cmpTasks : List SortKey → Task → Task → Int
  | [], _, _ => 0
  | sk :: rest, a, b =>
    let dir := sortDirInt sk.dir
    match getSortValue a sk.key, getSortValue b sk.key with
    | none, none => cmpTasks rest a b
    | none, some _ => -1 * dir
    | some _, none => 1 * dir
    | some va, some vb =>
      match va, vb with
      | .num x, .num y =>
        if x < y then -1 * dir else if x > y then 1 * dir else cmpTasks rest a b
      | _, _ =>
        let sa := jsToStr va
        let sb := jsToStr vb
        if strLt sa sb then -1 * dir else if strLt sb sa then 1 * dir else cmpTasks rest a b

/-- Insertion into a sorted prefix: the element goes in front of the first
entry it compares `le` with. -/
def orderedIns (le : α → α → Bool) (x : α) : List α → List α
  | [] => [x]
  | y :: ys => if le x y then x :: y :: ys else y :: orderedIns le x ys

/-- Stable insertion sort, the model of JS `Array.prototype.sort` with a
comparator (the ECMAScript sort is required to be stable; for a consistent
comparator every stable sort produces the same list). -/
def insSort (le : α → α → Bool) : List α → List α
  | [] => []
  | x :: xs => orderedIns le x (insSort le xs)

/-- `multiKeySort` from utils.js: sort by the comparator `cmpTasks`. -/
def multiKeySort (spec : List SortKey) (tasks : List Task) : List Task :=
  insSort (fun a b => cmpTasks spec a b ≤ 0) tasks

/-! ### linter.js -/

/-- One linter diagnostic: 1-based line number, message, character range and
error code. -/
structure LintMsg : Type where
  line : Nat
  msg : Str
  startCh : Nat
  endCh : Nat
  code : Option Str
deriving DecidableEq

/-- Quote/backtick span validation (`validateQuotes`): a single left-to-right
scan over three mutually exclusive quote modes with a one-character backslash
escape; each mode still open at the end reports an unclosed-quote error
anchored at its opening offset. -/
def validateQuotesAux (lineNo : Nat) :
    Str → Nat → Bool → Bool → Bool → Bool →
    Option Nat → Option Nat → Option Nat → List LintMsg
  | [], _, inD, inS, inB, _, lastD, lastS, lastB =>
    (if inD then [⟨lineNo + 1, S "Unclosed double quote", lastD.getD 0, lastD.getD 0 + 1, some (S "TD001")⟩] else []) ++
    (if inS then [⟨lineNo + 1, S "Unclosed single quote", lastS.getD 0, lastS.getD 0 + 1, some (S "TD002")⟩] else []) ++
    (if inB then [⟨lineNo + 1, S "Unclosed backtick quote", lastB.getD 0, lastB.getD 0 + 1, some (S "TD003")⟩] else [])
  | c :: cs, i, inD, inS, inB, esc, lastD, lastS, lastB =>
    if esc then validateQuotesAux lineNo cs (i + 1) inD inS inB false lastD lastS lastB
    else if c = '\\' then validateQuotesAux lineNo cs (i + 1) inD inS inB true lastD lastS lastB
    else if c = qD && !inS && !inB then
      if inD then validateQuotesAux lineNo cs (i + 1) false inS inB false lastD lastS lastB
      else validateQuotesAux lineNo cs (i + 1) true inS inB false (some i) lastS lastB
    else if c = qS && !inD && !inB then
      if inS then validateQuotesAux lineNo cs (i + 1) inD false inB false lastD lastS lastB
      else validateQuotesAux lineNo cs (i + 1) inD true inB false lastD (some i) lastB
    else if c = qB && !inD && !inS then
      if inB then validateQuotesAux lineNo cs (i + 1) inD inS false false lastD lastS lastB
      else validateQuotesAux lineNo cs (i + 1) inD inS true false lastD lastS (some i)
    else validateQuotesAux lineNo cs (i + 1) inD inS inB false lastD lastS lastB

/-- `validateQuotes` from linter.js (positions offset by `lineOff`). -/
def validateQuotes (text : Str) (lineNo lineOff : Nat) : List LintMsg :=
  validateQuotesAux lineNo text lineOff false false false false none none none

/-- A token of `validateBulletLine`'s scanner: text plus character range. -/
structure TokP : Type where
  text : Str
  startP : Nat
  endP : Nat
deriving DecidableEq

/-- Quote-respecting position-tracking tokenizer of `validateBulletLine`:
splits on whitespace outside single/double/backtick quotes, honouring
backslash escapes.  Fuel bounds the steps (the whitespace branch also skips
the following whitespace run). -/
def vblToksAux (lineOff totalLen : Nat) :
    Nat → Str → Nat → Str → Nat → Option Char → Bool → List TokP
  | _, [], _, cur, curStart, _, _ =>
    if trim cur ≠ [] then [⟨trim cur, lineOff + curStart, lineOff + totalLen⟩] else []
  | 0, _ :: _, _, cur, curStart, _, _ =>
    if trim cur ≠ [] then [⟨trim cur, lineOff + curStart, lineOff + totalLen⟩] else []
  | fuel + 1, c :: cs, i, cur, curStart, inQ, esc =>
    if esc then vblToksAux lineOff totalLen fuel cs (i + 1) (cur ++ [c]) curStart inQ false
    else if c = '\\' then vblToksAux lineOff totalLen fuel cs (i + 1) (cur ++ [c]) curStart inQ true
    else if inQ = none && (c = qD || c = qB || c = qS) then
      vblToksAux lineOff totalLen fuel cs (i + 1) (cur ++ [c]) curStart (some c) false
    else if inQ = some c then
      vblToksAux lineOff totalLen fuel cs (i + 1) (cur ++ [c]) curStart none false
    else if inQ = none && isWsCh c then
      let toks := if trim cur ≠ [] then [⟨trim cur, lineOff + curStart, lineOff + i⟩] else []
      let k := (cs.takeWhile isWsCh).length
      toks ++ vblToksAux lineOff totalLen fuel (cs.drop k) (i + 1 + k) [] (i + 1 + k) none false
    else vblToksAux lineOff totalLen fuel cs (i + 1) (cur ++ [c]) curStart inQ false

/-- Tokenize a bullet line's content with positions. -/
def vblToks (content : Str) (lineOff : Nat) : List TokP :=
  vblToksAux lineOff content.length content.length content 0 [] 0 none false

/-- Token test `/^[A-Dx\-]$/` plus `@`/`#` openings: the tokens counted as
legal leading prefix macros by the linter. -/
def isVblPrefixTok (s : Str) : Bool :=
  (match s with
   | [c] => ('A' ≤ c && c ≤ 'D') || c = 'x' || c = '-'
   | _ => false) || startsWithCh s '@' || startsWithCh s '#'

/-- Priority-shorthand test `/^[A-Dx\-]$/` alone. -/
def isPrioShorthand (s : Str) : Bool :=
  match s with
  | [c] => ('A' ≤ c && c ≤ 'D') || c = 'x' || c = '-'
  | _ => false

/-- A token quoted in any of the three dialects. -/
def isQuoted3 (s : Str) : Bool :=
  (startsWithCh s qD && endsWithCh s qD) ||
  (startsWithCh s qB && endsWithCh s qB) ||
  (startsWithCh s qS && endsWithCh s qS)

/-- Key-value-shaped token (`/^[A-Za-z_][A-Za-z0-9_-]*:/`). -/
def isKeyValueTok (s : Str) : Bool := (keyColon? s).isSome

/-- Misplaced-token check of one token after the prefix section. -/
def misplacedCheck (lineNo : Nat) (t : TokP) (prev next : Option TokP) : List LintMsg :=
  if isQuoted3 t.text || isKeyValueTok t.text then []
  else if startsWithCh t.text '@' then
    [⟨lineNo + 1, S "@assignee tags are only allowed at beginning task prefix", t.startP, t.endP, some (S "TD010")⟩]
  else if startsWithCh t.text '#' then
    [⟨lineNo + 1, S "#tags are only allowed at beginning task prefix", t.startP, t.endP, some (S "TD011")⟩]
  else if isPrioShorthand t.text then
    if !(match prev with | some p => endsWithCh p.text ':' | none => false) &&
       !(match next with | some n => startsWithCh n.text ':' | none => false) then
      [⟨lineNo + 1, S "priority shorthand are only allowed at beginning task prefix", t.startP, t.endP, some (S "TD012")⟩]
    else []
  else []

/-- Misplaced-token loop over all tokens at positions `≥ pe` (the prefix
boundary), with access to the neighbouring tokens. -/
def misplacedErrsAux (lineNo pe : Nat) : Nat → Option TokP → List TokP → List LintMsg
  | _, _, [] => []
  | idx, prev, t :: ts =>
    (if pe ≤ idx then misplacedCheck lineNo t prev ts.head? else []) ++
    misplacedErrsAux lineNo pe (idx + 1) (some t) ts

/-- Unquoted-title / values-without-keys loop of `validateBulletLine`. -/
def titleValueErrs (lineNo : Nat) : List TokP → Bool → Bool → List LintMsg
  | [], _, _ => []
  | t :: ts, foundTitle, inKV =>
    if isKeyValueTok t.text then titleValueErrs lineNo ts foundTitle true
    else if isQuoted3 t.text then titleValueErrs lineNo ts true inKV
    else if !foundTitle && !inKV then
      (if ts.any (fun u => isKeyValueTok u.text) then
        [⟨lineNo + 1, S "strings need to be quoted or the remainder of the line will be assumed to be the task title", 0, 0, some (S "TD020")⟩]
       else []) ++ titleValueErrs lineNo ts true inKV
    else if foundTitle && !inKV then
      (if ts.any (fun u => isKeyValueTok u.text) then
        [⟨lineNo + 1, S "values without keys are not allowed (except in task prefix shorthand): " ++ t.text, 0, 0, some (S "TD021")⟩]
       else []) ++ titleValueErrs lineNo ts foundTitle inKV
    else titleValueErrs lineNo ts foundTitle inKV

/-- `validateBulletLine` from linter.js: quote validation, then the
misplaced-prefix-token scan, then the unquoted-title / bare-value scan. -/
def validateBulletLine (content : Str) (lineNo lineOff : Nat) : List LintMsg :=
  let toks := vblToks content lineOff
  let pe := (toks.takeWhile (fun t => isVblPrefixTok t.text)).length
  validateQuotes content lineNo lineOff ++
  misplacedErrsAux lineNo pe 0 none toks ++
  titleValueErrs lineNo (toks.drop pe) false false

/-- Markdown structure skipped by the linter: headings `#{1,6}\s`, horizontal
rules of dashes or equals signs. -/
def isMarkdownStruct (trimmed : Str) : Bool :=
  (let hs := (trimmed.takeWhile (· = '#')).length
   1 ≤ hs && hs ≤ 6 && (match trimmed.drop hs with | c :: _ => isWsCh c | [] => false)) ||
  (trimmed.length ≥ 3 && trimmed.all (· = '-')) ||
  (trimmed.length ≥ 3 && trimmed.all (· = '='))

/-- `findPrecedingBulletIndex`, given the already-processed raw lines in
reverse order: the most recent line whose trimmed form starts with a dash. -/
def findPrecedingBullet (prevRev : List Str) : Option Str :=
  prevRev.find? (fun l => startsWithCh (trim l) '-')

/-- First non-blank lookahead line relative to a base indent, as scanned by
the `'|'`-block checks of the linter: `true` when it is indented deeper than
`baseIndent` (a bullet line or a shallower line ends the scan). -/
def lookaheadDeeper (baseIndent : Nat) : List Str → Bool
  | [] => false
  | l :: rest =>
    let nxt := replaceTabs l
    let nxtTrim := trim nxt
    if nxtTrim = [] then lookaheadDeeper baseIndent rest
    else if startsWithCh nxtTrim '-' && indentOf nxt ≤ baseIndent then false
    else if indentOf nxt ≤ baseIndent then false
    else true

/-- Lookahead of the non-key-value branch (`looksLikeMultilineContent`): the
first non-blank lookahead line decides -- bullet lines end the scan, deeper
indentation means orphaned multi-line content. -/
def looksLikeMultiline (indent : Nat) : List Str → Bool
  | [] => false
  | l :: rest =>
    let nxt := replaceTabs l
    let nxtTrim := trim nxt
    if nxtTrim = [] then looksLikeMultiline indent rest
    else if startsWithCh nxtTrim '-' then false
    else if indentOf nxt ≤ indent then false
    else true

/-- First index of a character in a string (JS `indexOf`, total: length when
absent). -/
def idxOfCh (s : Str) (c : Char) : Nat :=
  match s with
  | [] => 0
  | d :: ds => if d = c then 0 else idxOfCh ds c + 1

/-- Linter scan state: accumulated errors and warnings, the indentation
stack, the explicit-id set, the open multi-line block (its base indent) and
the already-processed raw lines in reverse order. -/
structure LintSt : Type where
  errors : List LintMsg
  warnings : List LintMsg
  stack : List Nat
  idSet : List Str
  inside : Option Nat
  prevRev : List Str

/-- Process one bullet line (the `trimmed.startsWith('-')` branch of
`lintLines`). -/
def lintBullet (isz lineNo : Nat) (line trimmed : Str) (st : LintSt) : LintSt :=
  let indent := indentOf line
  let e1 :=
    if indent % isz ≠ 0 then
      [⟨lineNo + 1, S "Indentation " ++ natToStr indent ++ S " not multiple of " ++ natToStr isz ++ S " spaces",
        indent, indent + 1, some (S "TD030")⟩]
    else []
  let afterDash := trim (trimmed.drop 1)
  let e2 :=
    if afterDash = [] then
      [⟨lineNo + 1, S "Bullet line missing content", trimmed.length - 1, trimmed.length, some (S "TD031")⟩]
    else []
  let bulletOffset := indent + idxOfCh line '-' + 1
  let contentOffset := bulletOffset + (trimmed.length - 1 - afterDash.length)
  let e3 := validateBulletLine afterDash lineNo contentOffset
  let stack' := st.stack.dropWhile (fun top => indent ≤ top)
  let (e4, w4) :=
    match stack' with
    | parentIndent :: _ =>
      if indent - parentIndent > isz && indent - parentIndent ≠ isz then
        ([], [⟨lineNo + 1, S "Indentation jumped by " ++ natToStr (indent - parentIndent) ++
               S " spaces (expected " ++ natToStr isz ++ S ")", 0, 0, some (S "TD033")⟩])
      else ([], [])
    | [] =>
      if indent > 0 then
        ([⟨lineNo + 1, S "bullet hierarchy is not indented correctly; child exists without parent", 0, 0, some (S "TD032")⟩], [])
      else ([], [])
  { st with
    errors := st.errors ++ e1 ++ e2 ++ e3 ++ e4
    warnings := st.warnings ++ w4
    stack := indent :: stack' }

/-- Process one non-bullet line (the `else` branch of `lintLines`). -/
def lintNonBullet (lineNo : Nat) (line trimmed : Str) (restLines : List Str) (st : LintSt) : LintSt :=
  if isMarkdownStruct trimmed then st
  else
    match findPrecedingBullet st.prevRev with
    | none => st
    | some bulletLine =>
      let bulletIndent := indentOf (replaceTabs bulletLine)
      let indent := indentOf line
      if indent ≤ bulletIndent then st
      else
        match kvLineMatch trimmed with
        | none =>
          if st.inside.isSome then st
          else if looksLikeMultiline indent restLines then
            { st with errors := st.errors ++
              [⟨lineNo + 1, S "multi-line string value indentation without pipe; unexpected lines appearing indented within task", 0, 0, some (S "TD040")⟩] }
          else
            { st with errors := st.errors ++
              [⟨lineNo + 1, S "Expected key: value or multi-line content indented under key with |", 0, 0, some (S "TD041")⟩] }
        | some (k, v) =>
          if v = ['|'] then
            let found := lookaheadDeeper indent restLines
            let e :=
              if !found then
                [⟨lineNo + 1, S "Multi-line \x27|\x27 for key \x27" ++ k ++ S "\x27 has no indented content", 0, 0, some (S "TD042")⟩]
              else []
            { st with errors := st.errors ++ e, inside := some indent }
          else if trim v = [] then
            if lookaheadDeeper indent restLines then
              let e : List LintMsg :=
                [⟨lineNo + 1, S "multi-line string value indentation without pipe; unexpected lines appearing indented within task", 0, 0, some (S "TD040")⟩]
              { st with errors := st.errors ++ e, inside := some indent }
            else st
          else
            let hasSpace := v.any isWsCh
            let isQuotedV :=
              (startsWithCh v qD && endsWithCh v qD) ||
              (startsWithCh v qB && endsWithCh v qB) ||
              (startsWithCh v qS && endsWithCh v qS)
            let w :=
              if hasSpace && !isQuotedV then
                [⟨lineNo + 1, S "Unquoted value with spaces for key \x22" ++ k ++ S "\x22 (consider quoting)", 0, 0, some (S "TD100")⟩]
              else []
            if k = S "id" then
              if st.idSet.contains v then
                let e : List LintMsg :=
                  [⟨lineNo + 1, S "Duplicate id \x27" ++ v ++ S "\x27", 0, 0, some (S "TD050")⟩]
                { st with errors := st.errors ++ e, warnings := st.warnings ++ w }
              else { st with warnings := st.warnings ++ w, idSet := st.idSet ++ [v] }
            else { st with warnings := st.warnings ++ w }

/-- Main scan of `lintLines` over the physical lines. -/
def lintLoop (isz : Nat) : Nat → List Str → LintSt → LintSt
  | _, [], st => st
  | lineNo, raw :: restLines, st =>
    let line := replaceTabs raw
    let trimmed := trim line
    let indent := indentOf line
    let (st1, skip) :=
      match st.inside with
      | some base =>
        if trimmed ≠ [] then
          if indent ≤ base then ({ st with inside := none }, false)
          else (st, true)
        else (st, false)
      | none => (st, false)
    let st2 :=
      if skip then st1
      else if trimmed = [] then st1
      else if startsWithCh trimmed '-' then lintBullet isz lineNo line trimmed st1
      else lintNonBullet lineNo line trimmed restLines st1
    lintLoop isz (lineNo + 1) restLines { st2 with prevRev := raw :: st2.prevRev }

/-- `lintLines` from linter.js: errors and warnings of a document, with the
default indent size of `2` when `isz0` is the JS-falsy `0`. -/
def lintLines (lines : List Str) (isz0 : Nat) : List LintMsg × List LintMsg :=
  let isz := if isz0 = 0 then 2 else isz0
  let st := lintLoop isz 0 lines ⟨[], [], [], [], none, []⟩
  (st.errors, st.warnings)

/-! ### cli.js: escape processing, name validation, WHERE evaluation -/

/-- Replace every occurrence of a (nonempty) pattern, left to right and
without overlap (JS `s.replace(/pat/g, rep)` for a literal pattern). -/
def replaceAllSub (pat rep : Str) : Nat → Str → Str
  | _, [] => []
  | 0, s => s
  | fuel + 1, c :: cs =>
    if pat ≠ [] && pat.isPrefixOf (c :: cs) then
      rep ++ replaceAllSub pat rep fuel ((c :: cs).drop pat.length)
    else c :: replaceAllSub pat rep fuel cs

/-- `processEscapeSequences` from cli.js: the four sequential global
replacements `\n`, `\r`, `\t`, `\\`. -/
def processEscapeSequences (s : Str) : Str :=
  let p1 := replaceAllSub ['\\', 'n'] [Char.ofNat 10] s.length s
  let p2 := replaceAllSub ['\\', 'r'] [Char.ofNat 13] p1.length p1
  let p3 := replaceAllSub ['\\', 't'] ['\t'] p2.length p2
  replaceAllSub ['\\', '\\'] ['\\'] p3.length p3

/-- `validateTagName` from cli.js (`/^[a-zA-Z0-9_-]+$/`). -/
def validateTagName (t : Str) : Bool := t ≠ [] && t.all isIdentCh

/-- `validateStakeholderName` from cli.js (same character class). -/
def validateStakeholderName (t : Str) : Bool := t ≠ [] && t.all isIdentCh

/-- `value.split(',').map(s => s.trim()).filter(s => s.length > 0)`. -/
def splitCommaTrimFilter (v : Str) : List Str :=
  ((v.splitOn ',').map trim).filter (· ≠ [])

/-- Uppercase a character (ASCII). -/
def toUpperCh (c : Char) : Char :=
  if 'a' ≤ c && c ≤ 'z' then Char.ofNat (c.toNat - 32) else c

/-- JS `s.toUpperCase()` (ASCII fragment). -/
def strUpper (s : Str) : Str := s.map toUpperCh

/-- Lowercase a character (ASCII). -/
def lowerCh (c : Char) : Char :=
  if 'A' ≤ c && c ≤ 'Z' then Char.ofNat (c.toNat + 32) else c

/-- JS `s.toLowerCase()` (ASCII fragment). -/
def strLower (s : Str) : Str := s.map lowerCh

/-- A JS property read tri-state: `undefined`, `null`, or a value. -/
inductive JLook : Type where
  | undef
  | null
  | val (v : Value)
deriving DecidableEq

/-- Top-level property read `task[key]` of a node object (the object-valued
properties `data` and `children` never carry comparable scalars and are
omitted). -/
def topLookup (t : Task) (k : Str) : JLook :=
  if k = S "id" then .val t.idv
  else if k = S "parent" then
    match t.parent with
    | none => .null
    | some v => .val v
  else if k = S "indent" then .val (.num t.indent)
  else if k = S "inline" then .val (.str t.inline)
  else (.undef)

/-- The evaluator's lookup: `task[key]`, falling back to `task.data[key]`
when undefined. -/
def whereLookup (t : Task) (k : Str) : JLook :=
  match topLookup t k with
  | .undef =>
    match dget t.data k with
    | some v => .val v
    | none => .undef
  | x => x

/-- Literal coercion of the WHERE comparison value: `true`/`false` become
booleans, non-`NaN` text becomes a number, anything else is the
escape-processed string. -/
def coerceLiteral (v : Str) : Value :=
  if v = S "true" then .bool true
  else if v = S "false" then .bool false
  else
    match jsNum? v with
    | some n => .num n
    | none => .str (processEscapeSequences v)

/-- JS `ToNumber` of a value (`none` is `NaN`). -/
def toNumV : Value → Option Int
  | .num n => some n
  | .str s => jsNum? s
  | .bool b => some (if b then 1 else 0)
  | .arr xs => jsNum? (joinComma xs)

/-- JS loose equality `==` between two values (the fragment reachable here:
the right operand is a coerced literal, never `null`/`undefined`). -/
def looseEqV : Value → Value → Bool
  | .str s, .str t => s = t
  | .num n, .num m => n = m
  | .bool b, .bool c => b = c
  | .num n, .str s => jsNum? s = some n
  | .str s, .num m => jsNum? s = some m
  | .bool b, .str s => jsNum? s = some (if b then 1 else 0)
  | .str s, .bool c => jsNum? s = some (if c then 1 else 0)
  | .bool b, .num m => (if b then (1 : Int) else 0) = m
  | .num n, .bool c => n = (if c then (1 : Int) else 0)
  | .arr xs, .str t => joinComma xs = t
  | .str s, .arr ys => s = joinComma ys
  | .arr xs, .num m => jsNum? (joinComma xs) = some m
  | .num n, .arr ys => jsNum? (joinComma ys) = some n
  | .arr xs, .bool c => jsNum? (joinComma xs) = some (if c then 1 else 0)
  | .bool b, .arr ys => jsNum? (joinComma ys) = some (if b then 1 else 0)
  | .arr _, .arr _ => false

/-- JS loose equality with a possibly `null`/`undefined` left operand. -/
def looseEqJ : JLook → Value → Bool
  | .undef, _ => false
  | .null, _ => false
  | .val v, cv => looseEqV v cv

/-- JS relational `>` between a property value and a coerced literal: two
strings compare lexicographically (an array stringifies first), anything
else compares numerically with `NaN` making the comparison false. -/
def jsGreater (a : JLook) (b : Value) : Bool :=
  match a, b with
  | .val (.str s), .str t => strLt t s
  | .val (.arr xs), .str t => strLt t (joinComma xs)
  | _, _ =>
    let na := match a with
      | .undef => none
      | .null => some 0
      | .val v => toNumV v
    match na, toNumV b with
    | some x, some y => x > y
    | _, _ => false

/-- JS relational `<` (same conversion rules as `>`). -/
def jsLess (a : JLook) (b : Value) : Bool :=
  match a, b with
  | .val (.str s), .str t => strLt s t
  | .val (.arr xs), .str t => strLt (joinComma xs) t
  | _, _ =>
    let na := match a with
      | .undef => none
      | .null => some 0
      | .val v => toNumV v
    match na, toNumV b with
    | some x, some y => x < y
    | _, _ => false

/-- JS `s.includes(pat)`: substring test. -/
def isSubStrOf (pat : Str) : Str → Bool
  | [] => pat = []
  | c :: cs => pat.isPrefixOf (c :: cs) || isSubStrOf pat cs

/-- The `CONTAINS` operator: array membership (strict element equality, so a
string literal) or substring containment for string fields. -/
def containsOp (a : JLook) (cv : Value) : Bool :=
  match a with
  | .val (.arr xs) =>
    match cv with
    | .str s => xs.contains s
    | _ => false
  | .val (.str s) => isSubStrOf (jsToStr cv) s
  | _ => false

/-- `evaluateWhere` from cli.js: an empty token list matches everything; an
`IS [NOT] NULL` form tests presence (with missing boolean fields defaulting
to `false`); otherwise the first `key op value` triple is evaluated with `=`,
`>`, `<` and `CONTAINS`, and any remaining tokens (such as `AND`/`OR`
combinators) are ignored; unrecognized shapes match everything. -/
def evaluateWhere (t : Task) (w : List Str) : Bool :=
  match w with
  | k :: op :: v :: rest =>
    let lookRaw := whereLookup t k
    let isBoolKey := k = S "completed" || k = S "skipped"
    let tv := if isBoolKey then
        match lookRaw with
        | .undef => .val (.bool false)
        | x => x
      else lookRaw
    let generic : Bool :=
      let cv := coerceLiteral v
      if op = S "=" then looseEqJ tv cv
      else if op = S ">" then jsGreater tv cv
      else if op = S "<" then jsLess tv cv
      else if strUpper op = S "CONTAINS" then containsOp tv cv
      else true
    if strUpper op = S "IS" then
      if strUpper v = S "NULL" then
        match tv with
        | .null => true
        | .undef => true
        | .val (.bool false) => isBoolKey
        | _ => false
      else if strUpper v = S "NOT" && (rest.head?.map strUpper) = some (S "NULL") then
        match tv with
        | .null => false
        | .undef => false
        | .val (.bool false) => !isBoolKey
        | _ => true
      else generic
    else generic
  | _ => true

/-! ### cli.js: UPDATE / DELETE / INSERT and the section rewriter -/

/-- One `SET` assignment of an UPDATE / INSERT query (the literal as produced
by the query tokenizer, quotes already stripped). -/
structure Assign : Type where
  key : Str
  value : Str

/-- Error message for an invalid tag name. -/
def tagErrMsg (t : Str) : Str :=
  S "Error: Invalid tag name \x27" ++ t ++
  S "\x27. Tags may only contain letters, numbers, hyphens, and underscores. No spaces or # symbols are allowed."

/-- Error message for an invalid stakeholder name. -/
def stakeholderErrMsg (t : Str) : Str :=
  S "Error: Invalid stakeholder name \x27" ++ t ++
  S "\x27. Stakeholders may only contain letters, numbers, hyphens, and underscores. No spaces or @ symbols are allowed."

/-- Pre-application validation loop of the UPDATE branch: every `tags` /
`stakeholders` assignment is comma-split and each item checked against the
identifier character class; the first bad item aborts the whole operation. -/
def validateAssigns : List Assign → Option Str
  | [] => none
  | a :: rest =>
    if a.key = S "tags" then
      match (splitCommaTrimFilter (processEscapeSequences a.value)).find? (fun t => !validateTagName t) with
      | some t => some (tagErrMsg t)
      | none => validateAssigns rest
    else if a.key = S "stakeholders" then
      match (splitCommaTrimFilter (processEscapeSequences a.value)).find? (fun t => !validateStakeholderName t) with
      | some t => some (stakeholderErrMsg t)
      | none => validateAssigns rest
    else validateAssigns rest

/-- Literal conversion of the SET branches: booleans, then numbers (with the
empty string excluded), else the string itself. -/
def convertSetValue (v : Str) : Value :=
  if v = S "true" then .bool true
  else if v = S "false" then .bool false
  else
    match jsNum? v with
    | some n => if v ≠ [] then .num n else .str v
    | none => .str v

/-- Apply one SET assignment to a node's data: `tags` / `stakeholders` get
comma-split into arrays, everything else is converted as a literal. -/
def applyAssign (d : Dict) (a : Assign) : Dict :=
  let value := processEscapeSequences a.value
  if a.key = S "stakeholders" || a.key = S "tags" then
    dset d a.key (.arr (splitCommaTrimFilter value))
  else dset d a.key (convertSetValue value)

mutual

/-- UPDATE application over the tree: the JS code mutates the flattened node
references in place; the model rebuilds each node, applying the assignments
to every node matching the WHERE predicate. -/
def updNode (w : List Str) (set : List Assign) : Task → Task
  | .mk d i p n inl c =>
    let node := Task.mk d i p n inl c
    let d' := if evaluateWhere node w then set.foldl applyAssign d else d
    .mk d' i p n inl (updKids w set c)

/-- UPDATE application over siblings. -/
def updKids (w : List Str) (set : List Assign) : List Task → List Task
  | [] => []
  | t :: ts => updNode w set t :: updKids w set ts

end

mutual

/-- `removeFromTree` of the DELETE branch: nodes whose id is marked for
deletion are dropped together with their entire subtree; survivors keep
their recursively filtered children. -/
def removeNode (del : List Value) (t : Task) : Option Task :=
  match t with
  | .mk d i p n inl c =>
    if del.contains i then none
    else some (.mk d i p n inl (removeKids del c))

/-- `removeFromTree` over siblings. -/
def removeKids (del : List Value) : List Task → List Task
  | [] => []
  | t :: ts =>
    match removeNode del t with
    | some t' => t' :: removeKids del ts
    | none => removeKids del ts

end

/-- Modelled from the spec: `replaceTodoSection` of fileSection.js is not
among the provided sources (only its test suite is); this definition follows
spec section 4.6 and the fileSection tests.  A heading line matching
`## TODO` (case-insensitive, after trim) has everything up to the next
heading of level one or two replaced by the new task lines plus a blank
line; without such a heading, a `## TODO` section is appended (preceded by a
blank line when the file is nonempty and does not already end blank). -/
def isTodoHeading (l : Str) : Bool := strLower (trim l) = S "## todo"

/-- Modelled from the spec: a Markdown heading of level one or two (the
headings that terminate the TODO section). -/
def isStopHeading (l : Str) : Bool :=
  let t := trim l
  (t.take 2 = S "# ") || (t.take 3 = S "## ")

/-- Modelled from the spec: `replaceTodoSection` from fileSection.js. -/
def replaceTodoSection (orig taskLines : List Str) : List Str :=
  match orig.findIdx? isTodoHeading with
  | some h =>
    let pre := orig.take (h + 1)
    let after := orig.drop (h + 1)
    let suffix := after.drop ((after.takeWhile (fun l => !isStopHeading l)).length)
    pre ++ taskLines ++ [[]] ++ suffix
  | none =>
    if orig = [] then S "## TODO" :: taskLines
    else
      orig ++ (if trim (orig.getLastD []) ≠ [] then [([] : Str)] else []) ++
        S "## TODO" :: taskLines

/-- The lint gate of the `query` command: `parseFileToTree` with
`lint: true` throws when the linter reports any error. -/
def lintClean (lines : List Str) : Bool := (lintLines lines 2).1 = []

/-- The UPDATE branch of cli.js on an already-loaded file: lint-gated parse,
validation of all array-field assignments (aborting before any node is
modified and before anything is written), then in-memory application,
re-serialization and section replacement.  The returned line list is the
full new content of the file; an `error` result means the process exited
without writing. -/
def runUpdate (computeId : Identity → Str) (set : List Assign) (w : List Str)
    (origLines : List Str) : Except Str (List Str) :=
  if !lintClean origLines then .error (S "Lint errors detected")
  else
    let roots := parseLinesToTree computeId origLines
    match validateAssigns set with
    | some msg => .error msg
    | none =>
      let roots' := updKids w set roots
      .ok (replaceTodoSection origLines (serializeTasksToLines 2 roots'))

/-- The DELETE branch of cli.js: mark every flattened node matching the
WHERE predicate, excise marked nodes (cascading over their subtrees),
re-serialize and replace the section. -/
def runDelete (computeId : Identity → Str) (w : List Str)
    (origLines : List Str) : Except Str (List Str) :=
  if !lintClean origLines then .error (S "Lint errors detected")
  else
    let roots := parseLinesToTree computeId origLines
    let toDelete := ((collectTasks roots).filter (fun t => evaluateWhere t w)).map Task.idv
    let roots' := removeKids toDelete roots
    .ok (replaceTodoSection origLines (serializeTasksToLines 2 roots'))

/-- Assignment loop of the INSERT branch: builds the new node's data,
validating each array item as it goes; the first invalid item aborts the
whole operation (before anything is written). -/
def insertAssigns : Dict → List Assign → Except Str Dict
  | d, [] => .ok d
  | d, a :: rest =>
    let value := processEscapeSequences a.value
    if a.key = S "stakeholders" || a.key = S "tags" then
      let items := splitCommaTrimFilter value
      if a.key = S "tags" then
        match items.find? (fun t => !validateTagName t) with
        | some t => .error (tagErrMsg t)
        | none => insertAssigns (dset d a.key (.arr items)) rest
      else
        match items.find? (fun t => !validateStakeholderName t) with
        | some t => .error (stakeholderErrMsg t)
        | none => insertAssigns (dset d a.key (.arr items)) rest
    else insertAssigns (dset d a.key (convertSetValue value)) rest

/-- The INSERT branch of cli.js: build a brand-new root node from the
assignments, give it an id, append it to the root list, re-serialize and
replace the section. -/
def runInsert (computeId : Identity → Str) (set : List Assign)
    (origLines : List Str) : Except Str (List Str) :=
  if !lintClean origLines then .error (S "Lint errors detected")
  else
    let roots := parseLinesToTree computeId origLines
    match insertAssigns [] set with
    | .error msg => .error msg
    | .ok d =>
      let (d', idv) := ensureIdOnNode computeId d
      let newNode : Task := .mk d' idv none 0 (S "dummy") []
      .ok (replaceTodoSection origLines (serializeTasksToLines 2 (roots ++ [newNode])))

/-! ### Tree membership and id collection (for the DELETE claims) -/

mutual

/-- A node occurs in a tree: it is the root or occurs in a child. -/
def inNode (x : Task) : Task → Prop
  | .mk d i p n inl c => x = .mk d i p n inl c ∨ inForest x c

/-- A node occurs in a forest. -/
def inForest (x : Task) : List Task → Prop
  | [] => False
  | t :: ts => inNode x t ∨ inForest x ts

end

mutual

/-- All ids occurring in a tree, root first. -/
def idsNode : Task → List Value
  | .mk _ i _ _ _ c => i :: idsForest c

/-- All ids occurring in a forest. -/
def idsForest : List Task → List Value
  | [] => []
  | t :: ts => idsNode t ++ idsForest ts

end

/-- The id set marked by the DELETE branch: ids of every flattened node
matching the WHERE predicate. -/
def delOf (roots : List Task) (w : List Str) : List Value :=
  ((collectTasks roots).filter (fun t => evaluateWhere t w)).map Task.idv

/-! ### Concrete inputs used by the claim theorems -/

/-- A concrete digest instance used only for closed evaluations; every task
in those inputs carries an explicit id, so `ensureIdOnNode` never invokes
the digest on them and the results do not depend on this choice. -/
def cidFixed : Identity → Str := fun _ => S "00000000"

/-- The lint-clean round-trip input of the C1 analysis: a completed task
with an explicit id. -/
def c1Input : List Str := [S "- x \"T\" id: a1"]

/-- The unquoted-title line of spec Scenario 2 (claim C7). -/
def c7Line : Str := S "- A @Alice #planning Prepare roadmap due: 2025-10-05 weight: 10"

/-- A two-bullet document in which the same explicit id appears as an inline
`id:` pair on two different tasks (claim C6). -/
def c6InlineDup : List Str := [S "- \"a\" id: abc123", S "- \"b\" id: abc123"]

/-- A task with `priority` `"A"` and tags `["other"]` (claim C3). -/
def c3Task : Task :=
  .mk [(S "priority", .str (S "A")), (S "tags", .arr [S "other"])] (.str (S "x1")) none 0 (S "t") []

/-- A task having the sort field `p` (claim C2). -/
def c2HasP : Task := .mk [(S "p", .str (S "1"))] (.str (S "a")) none 0 (S "i") []

/-- A task lacking the sort field `p` (claim C2). -/
def c2NoP : Task := .mk [] (.str (S "b")) none 0 (S "i") []

/-- The original file of the C9 analysis: a TODO section with one task whose
`weight` field is the quoted numeric string `"10"`. -/
def c9Lines : List Str := [S "## TODO", S "- \"T\" weight: \"10\" id: a1"]

/-- The stable-token variant of the C9 file: the weight is the bare numeric
token `10` and the note a bare word, both of which the serializer re-emits
verbatim. -/
def c9GoodLines : List Str :=
  [S "## TODO", S "- \"T\" weight: 10 note: hello id: a1", S ""]

/-- A two-level tree for the C10 witness: parent `p1` with child `c1`,
sibling root `r1`. -/
def c10Child : Task := .mk [(S "title", .str (S "C"))] (.str (S "c1")) none 2 (S "i") []

/-- Parent node of the C10 witness. -/
def c10Parent : Task := .mk [(S "title", .str (S "P"))] (.str (S "p1")) none 0 (S "i") [c10Child]

/-- Unrelated root of the C10 witness. -/
def c10Other : Task := .mk [(S "title", .str (S "R"))] (.str (S "r1")) none 0 (S "i") []

/-! ### A canonical document class for the universal linter / update claims

The amended C6 and C9 claims are proved over documents rendered from a
structured form: single-line bullets at indent zero, with `key: value`
continuation lines at indent two.  The well-formedness predicates below
carve out the character-level side conditions (no tabs, no edge whitespace,
identifier-shaped keys, whitespace-free values). -/

/-- A key matching `[A-Za-z_][A-Za-z0-9_-]*`. -/
def GoodKeyP (k : Str) : Prop :=
  match k with
  | [] => False
  | c :: cs => isKeyStartCh c = true ∧ cs.all isIdentCh = true

/-- A continuation-line value: nonempty, whitespace-free, and not the
multi-line pipe marker. -/
def GoodValP (v : Str) : Prop :=
  v ≠ [] ∧ v.all (fun c => !isWsCh c) = true ∧ v ≠ ['|']

/-- Bullet-line content: nonempty, tab-free, no leading or trailing
whitespace. -/
def GoodContentP (c : Str) : Prop :=
  c ≠ [] ∧ trimL c = c ∧ trimR c = c ∧ c.all (fun ch => ch ≠ '\t') = true

/-- A structured task for the C6 class: bullet content plus `key: value`
continuation lines. -/
def GoodTaskP (t : Str × List (Str × Str)) : Prop :=
  GoodContentP t.1 ∧ ∀ kv ∈ t.2, GoodKeyP kv.1 ∧ GoodValP kv.2

/-- A structured document for the C6 class. -/
def GoodDocP (doc : List (Str × List (Str × Str))) : Prop :=
  ∀ t ∈ doc, GoodTaskP t

/-- Render a continuation line at indent two. -/
def renderKv (kv : Str × Str) : Str := ' ' :: ' ' :: (kv.1 ++ ':' :: ' ' :: kv.2)

/-- Render a task: its bullet line followed by its continuation lines. -/
def renderTask (t : Str × List (Str × Str)) : List Str :=
  ('-' :: ' ' :: t.1) :: t.2.map renderKv

/-- Render a whole document. -/
def renderDoc (doc : List (Str × List (Str × Str))) : List Str :=
  doc.flatMap renderTask

/-- The explicit id values of a task's continuation lines, in order. -/
def idValsTask (kvs : List (Str × Str)) : List Str :=
  (kvs.filter (fun kv => kv.1 = S "id")).map (fun kv => kv.2)

/-- The explicit id values of a document's continuation lines, in order. -/
def idValsDoc (doc : List (Str × List (Str × Str))) : List Str :=
  doc.flatMap (fun t => idValsTask t.2)

/-- Duplicate-id diagnostic test. -/
def isTD50 (m : LintMsg) : Bool := m.code = some (S "TD050")

/-- Number of duplicate-id errors in a diagnostic list. -/
def countTD50 (l : List LintMsg) : Nat := (l.filter isTD50).length

/-- The number of duplicate-id hits the linter's id set produces on a value
list: a value already seen counts one and is not re-added, a new value
extends the seen set. -/
def dupCount : List Str → List Str → Nat
  | _, [] => 0
  | seen, v :: vs =>
    if seen.contains v then 1 + dupCount seen vs else dupCount (seen ++ [v]) vs

/-- The id set after the linter has scanned a value list. -/
def addNew : List Str → List Str → List Str
  | seen, [] => seen
  | seen, v :: vs =>
    if seen.contains v then addNew seen vs else addNew (seen ++ [v]) vs

/-- The concrete witness document for the amended C6 claim: two tasks whose
continuation lines carry the same explicit id. -/
def c6WitnessDoc : List (Str × List (Str × Str)) :=
  [(S "\"a\"", [(S "id", S "abc123")]), (S "\"b\"", [(S "id", S "abc123")])]

/-- An assignment whose comma-split `tags` / `stakeholders` items contain an
invalid name (a character outside letters, digits, `-`, `_`). -/
def badAssign (a : Assign) : Prop :=
  (a.key = S "tags" ∧
    ((splitCommaTrimFilter (processEscapeSequences a.value)).any (fun t => !validateTagName t)) = true) ∨
  (a.key = S "stakeholders" ∧
    ((splitCommaTrimFilter (processEscapeSequences a.value)).any (fun t => !validateStakeholderName t)) = true)

/-! ## Claim theorems -/

/-- C4.  The parser maps only the bare markers to flags: `x` sets
`completed: true` and `-` sets `skipped: true`, but the bracketed markers
`[x]`, `[-]`, `[_]` that the repository's own help text documents and that
its serializer emits are ignored by `parseBulletLineInline` (no `completed`
or `skipped` field results, and absence of a marker leaves `completed`
unset rather than `false`).  This refutes the claim that `[x]` yields
`completed: true`, `[-]` yields `skipped: true` and `[_]` yields the
default. -/
theorem c4_bracket_markers_ignored :
    dget (parseBulletLineInline (S "[x] \"T\"")) (S "completed") = none ∧
    dget (parseBulletLineInline (S "[-] \"T\"")) (S "skipped") = none ∧
    dget (parseBulletLineInline (S "[_] \"T\"")) (S "completed") = none ∧
    dget (parseBulletLineInline (S "\"T\"")) (S "completed") = none ∧
    dget (parseBulletLineInline (S "x \"T\"")) (S "completed") = some (.bool true) ∧
    dget (parseBulletLineInline (S "- \"T\"")) (S "skipped") = some (.bool true) := by
  decide

/-- C5.  Stakeholder tokens do not accumulate into an array: the parser
stores a singular `stakeholder` string field, and a repeated `@name` token
overwrites the previous one (`@Alice @Bob` leaves only `Bob`); no
`stakeholders` array field is produced, although the repository's tests and
help text expect one. -/
theorem c5_stakeholders_overwrite :
    dget (parseBulletLineInline (S "@Alice @Bob \"T\"")) (S "stakeholders") = none ∧
    dget (parseBulletLineInline (S "@Alice @Bob \"T\"")) (S "stakeholder") = some (.str (S "Bob")) ∧
    dget (parseBulletLineInline (S "@Alice \"T\"")) (S "stakeholder") = some (.str (S "Alice")) := by
  decide

/-- C3.  The WHERE evaluator has no AND/OR support: on
`priority = 'A' AND tags CONTAINS 'rpc'` it evaluates only the first
`key op value` triple, so a task with priority `A` whose tags do not
contain `rpc` still matches; and on `priority = 'B' OR tags CONTAINS
'other'` the same task does not match although the second disjunct holds.
This refutes the claim that a compound of two conditions is evaluated as
their conjunction / disjunction. -/
theorem c3_and_or_ignored :
    evaluateWhere c3Task
      [S "priority", S "=", S "A", S "AND", S "tags", S "CONTAINS", S "rpc"] = true ∧
    evaluateWhere c3Task [S "tags", S "CONTAINS", S "rpc"] = false ∧
    evaluateWhere c3Task
      [S "priority", S "=", S "B", S "OR", S "tags", S "CONTAINS", S "other"] = false ∧
    evaluateWhere c3Task [S "tags", S "CONTAINS", S "other"] = true := by
  decide

/-- C1.  Round-trip idempotence fails on the lint-clean input
`- x "T" id: a1`: the first parse records `completed: true`, the serializer
re-emits the marker in its bracketed form `[x]`, and the second parse
ignores that token, losing the `completed` field -- the re-parsed tree
differs from the first parse.  (The serialized form even fails the linter.)
The digest function is irrelevant because the task carries an explicit id. -/
theorem c1_roundtrip_breaks (computeId : Identity → Str) :
    (lintLines c1Input 2).1 = [] ∧
    serializeTasksToLines 2 (parseLinesToTree computeId c1Input) = [S "- [x] \"T\" id: a1"] ∧
    ((parseLinesToTree computeId c1Input).map (fun t => dget t.data (S "completed"))) =
      [some (.bool true)] ∧
    ((parseLinesToTree computeId [S "- [x] \"T\" id: a1"]).map
      (fun t => dget t.data (S "completed"))) = [none] ∧
    (lintLines [S "- [x] \"T\" id: a1"] 2).1 ≠ [] := by
  refine ⟨rfl, rfl, rfl, rfl, ?_⟩
  decide

/-- C7 (counterexample).  Linting the Scenario 2 line produces two errors,
not exactly one: the unquoted-title error and a values-without-keys error
for the second bare word. -/
theorem c7_counterexample :
    (lintLines [c7Line] 2).1.length = 2 ∧ (lintLines [c7Line] 2).1.length ≠ 1 := by
  decide

/-- C7 (amended).  Linting the Scenario 2 line produces exactly two lint
errors: the first cites "strings need to be quoted" (code TD020) for the
unquoted title, and the second flags the following bare word `roadmap` as a
value without a key (code TD021); there are no warnings. -/
theorem c7_two_errors :
    (lintLines [c7Line] 2).1 =
      [⟨1, S "strings need to be quoted or the remainder of the line will be assumed to be the task title",
        0, 0, some (S "TD020")⟩,
       ⟨1, S "values without keys are not allowed (except in task prefix shorthand): roadmap",
        0, 0, some (S "TD021")⟩] ∧
    isSubStrOf (S "strings need to be quoted")
      (((lintLines [c7Line] 2).1.headD ⟨0, [], 0, 0, none⟩).msg) = true ∧
    (lintLines [c7Line] 2).2 = [] := by
  decide

/-- C6 (counterexample).  A document in which the same explicit id appears
as an inline `id:` pair on two different bullet lines produces no lint
error at all -- in particular no duplicate-id error -- refuting the claim
that duplicate explicit ids are reported wherever they appear. -/
theorem c6_inline_dup_unreported :
    (lintLines c6InlineDup 2).1 = [] := by
  decide

/-- C2 (counterexample).  Sorting two tasks by the key `p` in descending
direction leaves the task lacking `p` after the task having it: the
comparator multiplies the undefined-first rule by the direction factor, so
missing fields sort last under `desc`, refuting "missing precedes present
in both directions". -/
theorem c2_counterexample :
    multiKeySort [⟨S "p", S "desc"⟩] [c2HasP, c2NoP] = [c2HasP, c2NoP] ∧
    getSortValue c2NoP (S "p") = none ∧
    getSortValue c2HasP (S "p") = some (.str (S "1")) := by
  exact ⟨rfl, rfl, rfl⟩

/-- Membership in an ordered insertion. -/
theorem mem_orderedIns {α : Type} {le : α → α → Bool} {x : α} :
    ∀ {l : List α} {z : α}, z ∈ orderedIns le x l → z = x ∨ z ∈ l
  | [], z, h => Or.inl (by simpa [orderedIns] using h)
  | y :: ys, z, h => by
    rw [orderedIns] at h
    by_cases hxy : le x y = true
    · rw [if_pos hxy] at h
      rcases List.mem_cons.mp h with h' | h'
      · exact Or.inl h'
      · exact Or.inr h'
    · rw [if_neg hxy] at h
      rcases List.mem_cons.mp h with h' | h'
      · exact Or.inr (by simp [h'])
      · rcases mem_orderedIns h' with h'' | h''
        · exact Or.inl h''
        · exact Or.inr (List.mem_cons_of_mem _ h'')

/-- Inserting into a list whose `P`-satisfying elements form a prefix keeps
that shape, provided the comparator separates `P`: a `P`-element never
compares after a non-`P` element and a non-`P` element never compares
before a `P`-element. -/
theorem pairwise_orderedIns_sep {α : Type} {P : α → Prop} {le : α → α → Bool}
    (h1 : ∀ x y, P x → ¬ P y → le x y = true)
    (h2 : ∀ x y, ¬ P x → P y → le x y = false)
    (x : α) : ∀ l : List α, l.Pairwise (fun a b => P b → P a) →
      (orderedIns le x l).Pairwise (fun a b => P b → P a)
  | [], _ => by simp [orderedIns]
  | y :: ys, hl => by
    rw [orderedIns]
    by_cases hxy : le x y = true
    · rw [if_pos hxy]
      rw [List.pairwise_cons]
      refine ⟨?_, hl⟩
      intro z hz hPz
      by_cases hPx : P x
      · exact hPx
      · exfalso
        have hPy : ¬ P y := fun hPy => by
          have := h2 x y hPx hPy
          rw [this] at hxy
          exact Bool.false_ne_true hxy
        rcases List.mem_cons.mp hz with rfl | hz'
        · exact hPy hPz
        · exact hPy ((List.pairwise_cons.mp hl).1 z hz' hPz)
    · rw [if_neg hxy]
      rw [List.pairwise_cons]
      constructor
      · intro z hz
        rcases mem_orderedIns hz with rfl | hz'
        · intro hPz
          by_cases hPy : P y
          · exact hPy
          · exact absurd (h1 z y hPz hPy) hxy
        · exact (List.pairwise_cons.mp hl).1 z hz'
      · exact pairwise_orderedIns_sep h1 h2 x ys (List.pairwise_cons.mp hl).2

/-- Insertion sort with a `P`-separating comparator puts every `P`-element
before every non-`P` element. -/
theorem pairwise_insSort_sep {α : Type} {P : α → Prop} {le : α → α → Bool}
    (h1 : ∀ x y, P x → ¬ P y → le x y = true)
    (h2 : ∀ x y, ¬ P x → P y → le x y = false) :
    ∀ l : List α, (insSort le l).Pairwise (fun a b => P b → P a)
  | [] => by simp [insSort]
  | x :: xs => pairwise_orderedIns_sep h1 h2 x _ (pairwise_insSort_sep h1 h2 xs)

/-- Direction factor of the ascending keyword. -/
theorem sortDirInt_asc : sortDirInt (S "asc") = 1 := by decide

/-- Direction factor of the descending keyword. -/
theorem sortDirInt_desc : sortDirInt (S "desc") = -1 := by decide

/-- C2 (amended).  For the first sort key the comparator decides placement
of missing fields before any later key is consulted, so after
`multiKeySort`: in ascending direction every task lacking the field
precedes every task having it, and in descending direction every task
lacking the field follows every task having it (the `-1 * dir` in the
comparator flips the undefined-first rule with the direction). -/
theorem c2_missing_first_by_direction (k : Str) (rest : List SortKey) (ts : List Task) :
    (multiKeySort (⟨k, S "asc"⟩ :: rest) ts).Pairwise
      (fun a b => getSortValue b k = none → getSortValue a k = none) ∧
    (multiKeySort (⟨k, S "desc"⟩ :: rest) ts).Pairwise
      (fun a b => (getSortValue b k).isSome = true → (getSortValue a k).isSome = true) := by
  constructor
  · apply pairwise_insSort_sep (P := fun t => getSortValue t k = none)
    · intro x y hx hy
      rcases ho : getSortValue y k with _ | v
      · exact absurd ho hy
      · simp [cmpTasks, hx, ho, sortDirInt_asc]
    · intro x y hx hy
      rcases ho : getSortValue x k with _ | v
      · exact absurd ho hx
      · simp [cmpTasks, hy, ho, sortDirInt_asc]
  · apply pairwise_insSort_sep (P := fun t => (getSortValue t k).isSome = true)
    · intro x y hx hy
      rcases ho : getSortValue x k with _ | v
      · rw [ho] at hx; exact absurd hx (by simp)
      · have hy' : getSortValue y k = none := by
          rcases ho2 : getSortValue y k with _ | w
          · rfl
          · rw [ho2] at hy; simp at hy
        simp [cmpTasks, ho, hy', sortDirInt_desc]
    · intro x y hx hy
      rcases ho : getSortValue y k with _ | v
      · rw [ho] at hy; simp at hy
      · have hx' : getSortValue x k = none := by
          rcases ho2 : getSortValue x k with _ | w
          · rfl
          · rw [ho2] at hx; simp at hx
        simp [cmpTasks, ho, hx', sortDirInt_desc]

/-- The validation loop finds an error whenever some assignment carries an
invalid array item. -/
theorem validateAssigns_isSome :
    ∀ set : List Assign, (∃ a ∈ set, badAssign a) → (validateAssigns set).isSome = true
  | [], h => by rcases h with ⟨a, ha, _⟩; cases ha
  | a :: rest, h => by
    rcases h with ⟨b, hb, hbad⟩
    rw [validateAssigns]
    by_cases hk : a.key = S "tags"
    · rw [if_pos hk]
      rcases hf : (splitCommaTrimFilter (processEscapeSequences a.value)).find?
          (fun t => !validateTagName t) with _ | t
      · have hrest : ∃ c ∈ rest, badAssign c := by
          rcases List.mem_cons.mp hb with rfl | hb'
          · exfalso
            rcases hbad with ⟨_, hany⟩ | ⟨hk2, _⟩
            · rcases List.any_eq_true.mp hany with ⟨t, ht, hbadt⟩
              have := List.find?_eq_none.mp hf t ht
              simp [hbadt] at this
            · rw [hk] at hk2; exact absurd hk2 (by decide)
          · exact ⟨b, hb', hbad⟩
        simpa using validateAssigns_isSome rest hrest
      · simp
    · rw [if_neg hk]
      by_cases hk2 : a.key = S "stakeholders"
      · rw [if_pos hk2]
        rcases hf : (splitCommaTrimFilter (processEscapeSequences a.value)).find?
            (fun t => !validateStakeholderName t) with _ | t
        · have hrest : ∃ c ∈ rest, badAssign c := by
            rcases List.mem_cons.mp hb with rfl | hb'
            · exfalso
              rcases hbad with ⟨hk1, _⟩ | ⟨_, hany⟩
              · exact hk hk1
              · rcases List.any_eq_true.mp hany with ⟨t, ht, hbadt⟩
                have := List.find?_eq_none.mp hf t ht
                simp [hbadt] at this
            · exact ⟨b, hb', hbad⟩
          simpa using validateAssigns_isSome rest hrest
        · simp
      · rw [if_neg hk2]
        have hrest : ∃ c ∈ rest, badAssign c := by
          rcases List.mem_cons.mp hb with rfl | hb'
          · exfalso
            rcases hbad with ⟨hk1, _⟩ | ⟨hk1, _⟩
            · exact hk hk1
            · exact hk2 hk1
          · exact ⟨b, hb', hbad⟩
        simpa using validateAssigns_isSome rest hrest

/-- The INSERT assignment loop errors whenever some assignment carries an
invalid array item. -/
theorem insertAssigns_isError :
    ∀ (d : Dict) (set : List Assign), (∃ a ∈ set, badAssign a) →
      ∃ msg, insertAssigns d set = .error msg
  | _, [], h => by rcases h with ⟨a, ha, _⟩; cases ha
  | d, a :: rest, h => by
    rcases h with ⟨b, hb, hbad⟩
    rw [insertAssigns]
    by_cases hk : a.key = S "stakeholders" ∨ a.key = S "tags"
    · have hk' : (a.key = S "stakeholders" || a.key = S "tags") = true := by
        rcases hk with hk | hk <;> simp [hk]
      rw [if_pos hk']
      by_cases hkt : a.key = S "tags"
      · rw [if_pos hkt]
        rcases hf : (splitCommaTrimFilter (processEscapeSequences a.value)).find?
            (fun t => !validateTagName t) with _ | t
        · have hrest : ∃ c ∈ rest, badAssign c := by
            rcases List.mem_cons.mp hb with rfl | hb'
            · exfalso
              rcases hbad with ⟨_, hany⟩ | ⟨hk2, _⟩
              · rcases List.any_eq_true.mp hany with ⟨t, ht, hbadt⟩
                have := List.find?_eq_none.mp hf t ht
                simp [hbadt] at this
              · rw [hkt] at hk2; exact absurd hk2 (by decide)
            · exact ⟨b, hb', hbad⟩
          exact insertAssigns_isError _ rest hrest
        · exact ⟨_, rfl⟩
      · rw [if_neg hkt]
        have hks : a.key = S "stakeholders" := by
          rcases hk with hk | hk
          · exact hk
          · exact absurd hk hkt
        rcases hf : (splitCommaTrimFilter (processEscapeSequences a.value)).find?
            (fun t => !validateStakeholderName t) with _ | t
        · have hrest : ∃ c ∈ rest, badAssign c := by
            rcases List.mem_cons.mp hb with rfl | hb'
            · exfalso
              rcases hbad with ⟨hk1, _⟩ | ⟨_, hany⟩
              · exact hkt hk1
              · rcases List.any_eq_true.mp hany with ⟨t, ht, hbadt⟩
                have := List.find?_eq_none.mp hf t ht
                simp [hbadt] at this
            · exact ⟨b, hb', hbad⟩
          exact insertAssigns_isError _ rest hrest
        · exact ⟨_, rfl⟩
    · have hk' : (a.key = S "stakeholders" || a.key = S "tags") = false := by
        push_neg at hk
        simp [hk.1, hk.2]
      rw [if_neg (by simp [hk'])]
      have hrest : ∃ c ∈ rest, badAssign c := by
        push_neg at hk
        rcases List.mem_cons.mp hb with rfl | hb'
        · exfalso
          rcases hbad with ⟨hk1, _⟩ | ⟨hk1, _⟩
          · exact hk.2 hk1
          · exact hk.1 hk1
        · exact ⟨b, hb', hbad⟩
      exact insertAssigns_isError _ rest hrest

/-- C8.  An UPDATE or INSERT whose SET assignments include a `tags` or
`stakeholders` item with a character outside letters, digits, `-` and `_`
aborts with an error: `runUpdate` validates every assignment before any
task's data is touched, `runInsert` aborts while building the new node, and
in both cases the function returns without producing output lines, so
nothing is written to the file and no partial mutation occurs. -/
theorem c8_invalid_items_abort (computeId : Identity → Str) (set : List Assign)
    (w : List Str) (lines : List Str) (h : ∃ a ∈ set, badAssign a) :
    (∃ msg, runUpdate computeId set w lines = .error msg) ∧
    (∃ msg, runInsert computeId set lines = .error msg) := by
  constructor
  · rw [runUpdate]
    by_cases hl : (!lintClean lines) = true
    · rw [if_pos hl]; exact ⟨_, rfl⟩
    · rw [if_neg hl]
      rcases Option.isSome_iff_exists.mp (validateAssigns_isSome set h) with ⟨msg, hmsg⟩
      rw [hmsg]
      exact ⟨msg, rfl⟩
  · rw [runInsert]
    by_cases hl : (!lintClean lines) = true
    · rw [if_pos hl]; exact ⟨_, rfl⟩
    · rw [if_neg hl]
      rcases insertAssigns_isError [] set h with ⟨msg, hmsg⟩
      rw [hmsg]
      exact ⟨msg, rfl⟩

/-- C8 (witness): the invalid tag item `bad tag!` aborts both operations on
a concrete file. -/
theorem c8_invalid_items_abort_witness :
    (∃ a ∈ [(⟨S "tags", S "bad tag!"⟩ : Assign)], badAssign a) ∧
    (∃ msg, runUpdate cidFixed [⟨S "tags", S "bad tag!"⟩] [] [S "## TODO"] = .error msg) ∧
    (∃ msg, runInsert cidFixed [⟨S "tags", S "bad tag!"⟩] [S "## TODO"] = .error msg) := by
  have hbad : ∃ a ∈ [(⟨S "tags", S "bad tag!"⟩ : Assign)], badAssign a := by
    refine ⟨_, List.mem_singleton.mpr rfl, Or.inl ⟨rfl, ?_⟩⟩
    decide
  rcases c8_invalid_items_abort cidFixed [⟨S "tags", S "bad tag!"⟩] [] [S "## TODO"] hbad with ⟨h1, h2⟩
  exact ⟨hbad, h1, h2⟩

/-- Every node surviving `removeFromTree` has an id from the original forest
that is not marked for deletion. -/
theorem inForest_removeKids (del : List Value) :
    ∀ (ts : List Task) (x : Task), inForest x (removeKids del ts) →
      x.idv ∈ idsForest ts ∧ del.contains x.idv = false
  | [], x, h => absurd h (by simp [removeKids, inForest])
  | .mk d i p n inl c :: ts, x, h => by
    rw [removeKids] at h
    by_cases hdel : del.contains i = true
    · rw [show removeNode del (.mk d i p n inl c) = none by rw [removeNode, if_pos hdel]] at h
      rcases inForest_removeKids del ts x h with ⟨hmem, hdel'⟩
      refine ⟨?_, hdel'⟩
      rw [idsForest, List.mem_append]
      exact Or.inr hmem
    · rw [show removeNode del (.mk d i p n inl c) =
          some (.mk d i p n inl (removeKids del c)) by rw [removeNode, if_neg hdel]] at h
      rw [inForest] at h
      rcases h with h | h
      · rw [inNode] at h
        rcases h with h | h
        · subst h
          constructor
          · rw [Task.idv, idsForest, List.mem_append, idsNode]
            exact Or.inl (List.mem_cons_self _ _)
          · rw [Task.idv]
            simpa using hdel
        · rcases inForest_removeKids del c x h with ⟨hmem, hdel'⟩
          refine ⟨?_, hdel'⟩
          rw [idsForest, List.mem_append, idsNode]
          exact Or.inl (List.mem_cons_of_mem _ hmem)
      · rcases inForest_removeKids del ts x h with ⟨hmem, hdel'⟩
        refine ⟨?_, hdel'⟩
        rw [idsForest, List.mem_append]
        exact Or.inr hmem

/-- Ids of a subtree are among the forest's ids. -/
theorem idsNode_subset_of_inForest :
    ∀ (ts : List Task) (m : Task), inForest m ts →
      ∀ v, v ∈ idsNode m → v ∈ idsForest ts
  | [], _, h => absurd h (by simp [inForest])
  | .mk d i p n inl c :: ts, m, h => by
    rw [inForest] at h
    rcases h with h | h
    · rw [inNode] at h
      rcases h with h | h
      · subst h
        intro v hv
        rw [idsForest, List.mem_append]
        exact Or.inl hv
      · intro v hv
        have := idsNode_subset_of_inForest c m h v hv
        rw [idsForest, List.mem_append, idsNode]
        exact Or.inl (List.mem_cons_of_mem _ this)
    · intro v hv
      have := idsNode_subset_of_inForest ts m h v hv
      rw [idsForest, List.mem_append]
      exact Or.inr this

/-- Deleting a marked node excises its entire subtree: when all ids in the
forest are distinct, no id of the marked node's subtree survives
`removeFromTree`. -/
theorem removed_subtree_gone (del : List Value) :
    ∀ ts : List Task, (idsForest ts).Nodup →
      ∀ m, inForest m ts → del.contains m.idv = true →
      ∀ x, inForest x (removeKids del ts) → x.idv ∉ idsNode m
  | [], _, m, hm, _ => absurd hm (by simp [inForest])
  | .mk d i p n inl c :: ts, hnd, m, hm, hdelm => by
    intro x hx hmem
    rw [idsForest, idsNode] at hnd
    rcases List.nodup_append.mp hnd with ⟨hnd1, hnd2, hdisj⟩
    rw [inForest] at hm
    rw [removeKids] at hx
    by_cases hdel : del.contains i = true
    · rw [show removeNode del (.mk d i p n inl c) = none by rw [removeNode, if_pos hdel]] at hx
      rcases inForest_removeKids del ts x hx with ⟨hxid, _⟩
      rcases hm with hm | hm
      · have hsub : ∀ v ∈ idsNode m, v ∈ (i :: idsForest c : List Value) := by
          rw [inNode] at hm
          rcases hm with rfl | hm
          · intro v hv; exact hv
          · intro v hv
            exact List.mem_cons_of_mem _ (idsNode_subset_of_inForest c m hm v hv)
        exact hdisj (hsub _ hmem) hxid
      · exact removed_subtree_gone del ts hnd2 m hm hdelm x hx hmem
    · rw [show removeNode del (.mk d i p n inl c) =
          some (.mk d i p n inl (removeKids del c)) by rw [removeNode, if_neg hdel]] at hx
      rw [inForest] at hx
      rcases hm with hm | hm
      · rw [inNode] at hm
        rcases hm with rfl | hm
        · rw [Task.idv] at hdelm
          exact hdel hdelm
        · rcases hx with hx | hx
          · rw [inNode] at hx
            rcases hx with rfl | hx
            · rw [Task.idv] at hmem
              exact (List.nodup_cons.mp hnd1).1 (idsNode_subset_of_inForest c m hm i hmem)
            · exact removed_subtree_gone del c (List.nodup_cons.mp hnd1).2 m hm hdelm x hx hmem
          · rcases inForest_removeKids del ts x hx with ⟨hxid, _⟩
            exact hdisj
              (List.mem_cons_of_mem _ (idsNode_subset_of_inForest c m hm _ hmem)) hxid
      · rcases hx with hx | hx
        · rw [inNode] at hx
          rcases hx with rfl | hx
          · rw [Task.idv] at hmem
            exact hdisj (List.mem_cons_self _ _) (idsNode_subset_of_inForest ts m hm i hmem)
          · rcases inForest_removeKids del c x hx with ⟨hxid, _⟩
            exact hdisj (List.mem_cons_of_mem _ hxid)
              (idsNode_subset_of_inForest ts m hm _ hmem)
        · exact removed_subtree_gone del ts hnd2 m hm hdelm x hx hmem

/-- C10.  DELETE cascades: when the ids in a parsed forest are pairwise
distinct and the WHERE predicate marks a node `m` (its id is in the set
collected by the DELETE branch), the tree that the branch serializes and
writes -- `removeFromTree` applied to the roots -- contains no node carrying
any id of `m`'s subtree: neither `m` itself nor any of its descendants
survives, and children of a deleted node are never promoted to its parent,
even when they do not themselves match the predicate. -/
theorem c10_delete_cascades (roots : List Task) (w : List Str)
    (hnd : (idsForest roots).Nodup) (m : Task) (hm : inForest m roots)
    (hmatch : (delOf roots w).contains m.idv = true) :
    ∀ x, inForest x (removeKids (delOf roots w) roots) → x.idv ∉ idsNode m :=
  removed_subtree_gone (delOf roots w) roots hnd m hm hmatch

/-- C9 (counterexample).  Updating the priority of the task `a1` in a file
whose task carries the quoted numeric string value `weight: "10"` writes a
file that re-parses with `priority = "A"` as claimed, but the `weight`
field changes from the string `"10"` to the number `10`: the serializer
re-emits the parsed string without quotes and the re-parse coerces it to a
number, so not every other field of the node is unchanged. -/
theorem c9_counterexample :
    (lintLines c9Lines 2).1 = [] ∧
    runUpdate cidFixed [⟨S "priority", S "A"⟩] [S "id", S "=", S "a1"] c9Lines =
      .ok [S "## TODO", S "- A \"T\" weight: 10 id: a1", S ""] ∧
    ((parseLinesToTree cidFixed c9Lines).map (fun t => dget t.data (S "weight"))) =
      [some (.str (S "10"))] ∧
    ((parseLinesToTree cidFixed [S "## TODO", S "- A \"T\" weight: 10 id: a1", S ""]).map
        (fun t => (dget t.data (S "id"), dget t.data (S "priority"), dget t.data (S "weight")))) =
      [(some (.str (S "a1")), some (.str (S "A")), some (.num 10))] := by
  exact ⟨by decide, rfl, by decide, by decide⟩

/-! ### Character-level lemmas for the rendered document class -/

/-- Tab-free strings are fixed by tab replacement. -/
theorem replaceTabs_eq_self : ∀ {s : Str}, (∀ c ∈ s, c ≠ '\t') → replaceTabs s = s
  | [], _ => rfl
  | c :: cs, h => by
    rw [replaceTabs, if_neg (h c (List.mem_cons_self _ _))]
    rw [replaceTabs_eq_self (fun d hd => h d (List.mem_cons_of_mem _ hd))]

/-- Left trim is the identity on strings starting with a non-whitespace
character. -/
theorem trimL_cons_of_not_ws {c : Char} (h : isWsCh c = false) (s : Str) :
    trimL (c :: s) = c :: s := by
  rw [trimL, if_neg (by simp [h])]

/-- Left trim drops one leading whitespace character. -/
theorem trimL_cons_of_ws {c : Char} (h : isWsCh c = true) (s : Str) :
    trimL (c :: s) = trimL s := by
  rw [trimL, if_pos (by simp [h])]

/-- Left trim over an append whose left part survives. -/
theorem trimL_append_of_ne {x : Str} (h : trimL x ≠ []) (y : Str) :
    trimL (x ++ y) = trimL x ++ y := by
  induction x with
  | nil => exact absurd rfl h
  | cons c cs ih =>
    by_cases hc : isWsCh c = true
    · rw [trimL_cons_of_ws hc] at h
      rw [List.cons_append, trimL_cons_of_ws hc, trimL_cons_of_ws hc]
      exact ih h
    · have hc' : isWsCh c = false := by simpa using hc
      rw [List.cons_append, trimL_cons_of_not_ws hc', trimL_cons_of_not_ws hc']
      simp

/-- Right trim over an append whose right part is nonempty and fixed by
right trim. -/
theorem trimR_append_of_fixed {y : Str} (hy : trimR y = y) (hne : y ≠ []) (x : Str) :
    trimR (x ++ y) = x ++ y := by
  have h0 : (trimL y.reverse).reverse = y := hy
  have h1 : trimL y.reverse = y.reverse := by
    calc trimL y.reverse = ((trimL y.reverse).reverse).reverse := (List.reverse_reverse _).symm
      _ = y.reverse := by rw [h0]
  have h2 : trimL y.reverse ≠ [] := by
    rw [h1]
    simpa using hne
  rw [trimR, List.reverse_append, trimL_append_of_ne h2, h1, List.reverse_append,
    List.reverse_reverse, List.reverse_reverse]

/-- Right trim is the identity on a string ending in a non-whitespace
character. -/
theorem trimR_concat_of_not_ws {c : Char} (h : isWsCh c = false) (s : Str) :
    trimR (s ++ [c]) = s ++ [c] := by
  have : trimR [c] = [c] := by
    rw [trimR]
    simp [trimL_cons_of_not_ws h]
  exact trimR_append_of_fixed this (by simp) s

/-- A nonempty all-non-whitespace string is fixed by trimming. -/
theorem trim_eq_self_of_no_ws {v : Str} (hne : v ≠ [])
    (hv : v.all (fun c => !isWsCh c) = true) : trim v = v := by
  rcases v with _ | ⟨c, cs⟩
  · exact absurd rfl hne
  · have hc : isWsCh c = false := by
      have := (List.all_eq_true.mp hv) c (List.mem_cons_self _ _)
      simpa using this
    rcases List.eq_nil_or_concat (c :: cs) with h | ⟨ys, y, hy⟩
    · simp at h
    · have hyw : isWsCh y = false := by
        have hmem : y ∈ c :: cs := by rw [hy]; simp
        have := (List.all_eq_true.mp hv) y hmem
        simpa using this
      rw [trim, trimL_cons_of_not_ws hc, hy, List.concat_eq_append,
        trimR_concat_of_not_ws hyw]

/-- `dropWhile` with an always-true predicate erases the list. -/
theorem dropWhile_true {α : Type} (p : α → Bool) (h : ∀ x, p x = true) :
    ∀ l : List α, l.dropWhile p = []
  | [] => rfl
  | x :: xs => by rw [List.dropWhile_cons, if_pos (h x)]; exact dropWhile_true p h xs

/-- `takeWhile` stops exactly at the first failing element after an
all-satisfying prefix. -/
theorem takeWhile_sat_append {α : Type} {p : α → Bool} :
    ∀ {l : List α}, (∀ x ∈ l, p x = true) → ∀ {b : α}, p b = false → ∀ t,
      (l ++ b :: t).takeWhile p = l
  | [], _, b, hb, t => by simp [List.takeWhile_cons, hb]
  | x :: xs, h, b, hb, t => by
    rw [List.cons_append, List.takeWhile_cons, if_pos (h x (List.mem_cons_self _ _))]
    rw [takeWhile_sat_append (fun y hy => h y (List.mem_cons_of_mem _ hy)) hb t]

/-- The anchored key pattern on a well-formed rendered pair line. -/
theorem keyColon_render {k : Str} (hk : GoodKeyP k) (rest : Str) :
    keyColon? (k ++ ':' :: rest) = some (k, rest) := by
  rcases k with _ | ⟨c, cs⟩
  · exact absurd hk (by simp [GoodKeyP])
  · rcases hk with ⟨hc, hcs⟩
    rw [List.cons_append, keyColon?]
    rw [if_pos hc]
    have htw : (cs ++ ':' :: rest).takeWhile isIdentCh = cs :=
      takeWhile_sat_append (List.all_eq_true.mp hcs) (by decide) rest
    rw [htw]
    simp

/-- Quote validation never produces a duplicate-id diagnostic. -/
theorem validateQuotesAux_no50 (lineNo : Nat) (chars : Str) :
    ∀ i inD inS inB esc lD lS lB m,
      m ∈ validateQuotesAux lineNo chars i inD inS inB esc lD lS lB → isTD50 m = false := by
  induction chars with
  | nil =>
    intro i inD inS inB esc lD lS lB m hm
    rw [validateQuotesAux] at hm
    rcases List.mem_append.mp hm with hm' | hm'
    · rcases List.mem_append.mp hm' with hm'' | hm''
      · split at hm''
        · rw [List.mem_singleton.mp hm'']; rfl
        · cases hm''
      · split at hm''
        · rw [List.mem_singleton.mp hm'']; rfl
        · cases hm''
    · split at hm'
      · rw [List.mem_singleton.mp hm']; rfl
      · cases hm'
  | cons c cs ih =>
    intro i inD inS inB esc lD lS lB m hm
    rw [validateQuotesAux] at hm
    repeat' split at hm
    all_goals exact ih _ _ _ _ _ _ _ _ m hm

/-- The misplaced-token check never produces a duplicate-id diagnostic. -/
theorem misplacedCheck_no50 (lineNo : Nat) (t : TokP) (prev next : Option TokP) :
    ∀ m ∈ misplacedCheck lineNo t prev next, isTD50 m = false := by
  intro m hm
  unfold misplacedCheck at hm
  repeat' split at hm
  all_goals first
    | (rw [List.mem_singleton.mp hm]; rfl)
    | cases hm

/-- The misplaced-token loop never produces a duplicate-id diagnostic. -/
theorem misplacedErrsAux_no50 (lineNo pe : Nat) (toks : List TokP) :
    ∀ idx prev m, m ∈ misplacedErrsAux lineNo pe idx prev toks → isTD50 m = false := by
  induction toks with
  | nil => intro idx prev m hm; cases hm
  | cons t ts ih =>
    intro idx prev m hm
    rw [misplacedErrsAux] at hm
    rcases List.mem_append.mp hm with hm' | hm'
    · split at hm'
      · exact misplacedCheck_no50 lineNo t prev ts.head? m hm'
      · cases hm'
    · exact ih _ _ m hm'

/-- The title / bare-value loop never produces a duplicate-id diagnostic. -/
theorem titleValueErrs_no50 (lineNo : Nat) (toks : List TokP) :
    ∀ foundTitle inKV m, m ∈ titleValueErrs lineNo toks foundTitle inKV → isTD50 m = false := by
  induction toks with
  | nil => intro f i m hm; cases hm
  | cons t ts ih =>
    intro f i m hm
    rw [titleValueErrs] at hm
    repeat' split at hm
    all_goals first
      | exact ih _ _ m hm
      | (rcases List.mem_append.mp hm with hm' | hm'
         · rw [List.mem_singleton.mp hm']; rfl
         · exact ih _ _ m hm')

/-- Bullet-line content validation never produces a duplicate-id
diagnostic. -/
theorem validateBulletLine_no50 (content : Str) (lineNo lineOff : Nat) :
    ∀ m ∈ validateBulletLine content lineNo lineOff, isTD50 m = false := by
  intro m hm
  rw [validateBulletLine] at hm
  rcases List.mem_append.mp hm with hm' | hm'
  · rcases List.mem_append.mp hm' with hm'' | hm''
    · exact validateQuotesAux_no50 lineNo content _ _ _ _ _ _ _ _ m hm''
    · exact misplacedErrsAux_no50 lineNo _ _ _ _ m hm''
  · exact titleValueErrs_no50 lineNo _ _ _ m hm'

/-- The duplicate-id count distributes over appended diagnostic lists. -/
theorem countTD50_append (a b : List LintMsg) :
    countTD50 (a ++ b) = countTD50 a + countTD50 b := by
  simp [countTD50, List.filter_append]

/-- Diagnostic lists free of duplicate-id entries count zero. -/
theorem countTD50_eq_zero {l : List LintMsg} (h : ∀ m ∈ l, isTD50 m = false) :
    countTD50 l = 0 := by
  rw [countTD50, List.length_eq_zero, List.filter_eq_nil_iff]
  intro m hm
  simp [h m hm]

/-- C10 (witness): deleting `p1` from the concrete two-level tree (its child
`c1` does not match the predicate) leaves a forest in which the surviving
root carries no id of `p1`'s subtree. -/
theorem c10_delete_cascades_witness :
    (idsForest [c10Parent, c10Other]).Nodup ∧
    ((delOf [c10Parent, c10Other] [S "id", S "=", S "p1"]).contains c10Parent.idv = true) ∧
    c10Other.idv ∉ idsNode c10Parent :=
  ⟨by decide, by decide,
    c10_delete_cascades [c10Parent, c10Other] [S "id", S "=", S "p1"]
      (by decide) c10Parent (Or.inl (Or.inl rfl)) (by decide)
      c10Other (Or.inl (Or.inl rfl))⟩

/-- Membership transport for the whitespace-free hypothesis of a value. -/
theorem notWs_of_all {v : Str} (hv : v.all (fun c => !isWsCh c) = true)
    {c : Char} (hc : c ∈ v) : isWsCh c = false := by
  have := (List.all_eq_true.mp hv) c hc
  simpa using this

/-- A character satisfying a Boolean predicate differs from one that
falsifies it. -/
theorem ne_of_pred {p : Char → Bool} {c d : Char} (hc : p c = true)
    (hd : p d = false) : c ≠ d := by
  intro h
  rw [h, hd] at hc
  cases hc

/-- Key-start characters are not whitespace. -/
theorem keyStart_not_ws {c : Char} (h : isKeyStartCh c = true) :
    isWsCh c = false := by
  cases hw : isWsCh c
  · rfl
  · exfalso
    have ht : ((c = ' ' ∨ c = '\t') ∨ c = '\n') ∨ c = '\r' := by
      simpa [isWsCh] using hw
    have ht : c = ' ' ∨ c = '\t' ∨ c = '\n' ∨ c = '\r' := by tauto
    rcases ht with h1 | h1 | h1 | h1 <;> rw [h1] at h <;> exact absurd h (by decide)

/-- A nonempty all-non-whitespace string is fixed by right trim. -/
theorem trimR_of_no_ws {v : Str} (hne : v ≠ [])
    (hv : v.all (fun c => !isWsCh c) = true) : trimR v = v := by
  rcases List.eq_nil_or_concat v with h | ⟨ys, y, hy⟩
  · exact absurd h hne
  · have hyw : isWsCh y = false := by
      have hmem : y ∈ v := by rw [hy]; simp
      exact notWs_of_all hv hmem
    rw [hy, List.concat_eq_append, trimR_concat_of_not_ws hyw]

/-- Key-start characters are identifier characters. -/
theorem ident_of_keyStart {c : Char} (h : isKeyStartCh c = true) :
    isIdentCh c = true := by
  have h' : isAlphaCh c = true ∨ c = '_' := by simpa [isKeyStartCh] using h
  rcases h' with h1 | h1 <;> simp [isIdentCh, h1]

/-- Every character of a well-formed key is an identifier character. -/
theorem goodKey_chars {k : Str} (hk : GoodKeyP k) {c : Char} (hc : c ∈ k) :
    isIdentCh c = true := by
  rcases k with _ | ⟨kc, kcs⟩
  · exact hk.elim
  · rcases hk with ⟨h1, h2⟩
    rcases List.mem_cons.mp hc with h | h
    · rw [h]; exact ident_of_keyStart h1
    · exact (List.all_eq_true.mp h2) c h

/-- A rendered continuation line contains no tab. -/
theorem renderKv_noTab {k v : Str} (hk : GoodKeyP k) (hv : GoodValP v) :
    replaceTabs (renderKv (k, v)) = renderKv (k, v) := by
  apply replaceTabs_eq_self
  intro c hc
  simp only [renderKv, List.mem_cons, List.mem_append] at hc
  rcases hc with h | h | h | h | h | h
  · rw [h]; decide
  · rw [h]; decide
  · exact ne_of_pred (goodKey_chars hk h) (by decide)
  · rw [h]; decide
  · rw [h]; decide
  · have hw := notWs_of_all hv.2.1 h
    intro he
    rw [he] at hw
    exact absurd hw (by decide)

/-- Trimming a rendered continuation line keeps exactly `key: value`. -/
theorem renderKv_trim {k v : Str} (hk : GoodKeyP k) (hv : GoodValP v) :
    trim (renderKv (k, v)) = k ++ ':' :: ' ' :: v := by
  rcases k with _ | ⟨kc, kcs⟩
  · exact hk.elim
  · rcases hk with ⟨h1, _⟩
    rcases hv with ⟨hne, hnws, _⟩
    have hkc : isWsCh kc = false := keyStart_not_ws h1
    have hsp : isWsCh ' ' = true := by decide
    rw [renderKv, trim, trimL_cons_of_ws hsp, trimL_cons_of_ws hsp, List.cons_append,
      trimL_cons_of_not_ws hkc]
    have hshape : kc :: (kcs ++ ':' :: ' ' :: v) = (kc :: kcs ++ [':', ' ']) ++ v := by simp
    rw [hshape, trimR_append_of_fixed (trimR_of_no_ws hne hnws) hne]

/-- A rendered continuation line is indented by two spaces. -/
theorem renderKv_indent {k v : Str} (hk : GoodKeyP k) :
    indentOf (renderKv (k, v)) = 2 := by
  rcases k with _ | ⟨kc, kcs⟩
  · exact hk.elim
  · rcases hk with ⟨h1, _⟩
    have hkc : isWsCh kc = false := keyStart_not_ws h1
    have hsp : isWsCh ' ' = true := by decide
    rw [renderKv, List.cons_append]
    rw [indentOf, if_pos hsp, indentOf, if_pos hsp, indentOf, if_neg (by simp [hkc])]

/-- A trimmed rendered continuation line does not start with a dash. -/
theorem renderKv_trim_not_dash {k v : Str} (hk : GoodKeyP k) (hv : GoodValP v) :
    startsWithCh (trim (renderKv (k, v))) '-' = false := by
  rw [renderKv_trim hk hv]
  rcases k with _ | ⟨kc, kcs⟩
  · exact hk.elim
  · rcases hk with ⟨h1, _⟩
    have hne : kc ≠ '-' := ne_of_pred h1 (by decide)
    rw [List.cons_append, startsWithCh]
    simp [hne]

/-- A trimmed rendered continuation line is not markdown structure. -/
theorem renderKv_trim_not_md {k v : Str} (hk : GoodKeyP k) (hv : GoodValP v) :
    isMarkdownStruct (trim (renderKv (k, v))) = false := by
  rw [renderKv_trim hk hv]
  rcases k with _ | ⟨kc, kcs⟩
  · exact hk.elim
  · rcases hk with ⟨h1, _⟩
    have hne1 : kc ≠ '#' := ne_of_pred h1 (by decide)
    have hne2 : kc ≠ '-' := ne_of_pred h1 (by decide)
    have hne3 : kc ≠ '=' := ne_of_pred h1 (by decide)
    rw [List.cons_append, isMarkdownStruct]
    simp [List.takeWhile_cons, hne1, hne2, hne3]

/-- The continuation-line pattern recovers the key and the value from a
trimmed rendered pair line. -/
theorem renderKv_kvMatch {k v : Str} (hk : GoodKeyP k) (hv : GoodValP v) :
    kvLineMatch (trim (renderKv (k, v))) = some (k, v) := by
  rw [renderKv_trim hk hv, kvLineMatch, keyColon_render hk]
  rcases hv with ⟨hne, hnws, _⟩
  rcases v with _ | ⟨vc, vcs⟩
  · exact absurd rfl hne
  · have hvc : isWsCh vc = false := notWs_of_all hnws (List.mem_cons_self _ _)
    have hsp : isWsCh ' ' = true := by decide
    simp [List.dropWhile_cons, hvc, hsp]

/-- A rendered bullet line contains no tab. -/
theorem renderBullet_noTab {content : Str} (hc : GoodContentP content) :
    replaceTabs ('-' :: ' ' :: content) = '-' :: ' ' :: content := by
  apply replaceTabs_eq_self
  intro c hm
  rcases List.mem_cons.mp hm with h | h
  · rw [h]; decide
  · rcases List.mem_cons.mp h with h' | h'
    · rw [h']; decide
    · have := (List.all_eq_true.mp hc.2.2.2) c h'
      simpa using this

/-- A rendered bullet line is fixed by trimming. -/
theorem renderBullet_trim {content : Str} (hc : GoodContentP content) :
    trim ('-' :: ' ' :: content) = '-' :: ' ' :: content := by
  rcases hc with ⟨hne, _, hR, _⟩
  rw [trim, trimL_cons_of_not_ws (by decide)]
  have hshape : '-' :: ' ' :: content = ['-', ' '] ++ content := rfl
  rw [hshape, trimR_append_of_fixed hR hne]

/-- A rendered bullet line has indent zero. -/
theorem renderBullet_indent (content : Str) :
    indentOf ('-' :: ' ' :: content) = 0 := by
  rw [indentOf, if_neg (by decide)]

/-- A singleton diagnostic that is not a duplicate-id error counts zero. -/
theorem countTD50_singleton {m : LintMsg} (h : isTD50 m = false) :
    countTD50 [m] = 0 := by
  simp [countTD50, List.filter_cons, h]

/-- Bullet-line processing adds no duplicate-id error and leaves the id set,
the open block and the processed-lines accumulator unchanged. -/
theorem lintBullet_inv (isz lineNo : Nat) (line trimmed : Str) (st : LintSt) :
    countTD50 (lintBullet isz lineNo line trimmed st).errors = countTD50 st.errors ∧
    (lintBullet isz lineNo line trimmed st).idSet = st.idSet ∧
    (lintBullet isz lineNo line trimmed st).inside = st.inside ∧
    (lintBullet isz lineNo line trimmed st).prevRev = st.prevRev := by
  simp only [lintBullet]
  split
  all_goals split
  all_goals split
  all_goals split
  all_goals
    refine ⟨?_, by first | rfl | trivial, by first | rfl | trivial,
      by first | rfl | trivial⟩
  all_goals
    simp only [countTD50_append, List.append_nil,
      countTD50_eq_zero (validateBulletLine_no50 _ _ _)]
  all_goals
    simp [countTD50]
  all_goals rfl

/-- Processing a well-formed rendered continuation line: the duplicate-id
error appears exactly when the key is `id` and the value is already in the
id set, and the id set evolves by recording a fresh `id` value. -/
theorem lintNonBullet_kv (lineNo : Nat) {k v : Str} (hk : GoodKeyP k)
    (hv : GoodValP v) (restLines : List Str) (st : LintSt) {bl : Str}
    (hfind : findPrecedingBullet st.prevRev = some bl)
    (hbi : indentOf (replaceTabs bl) = 0) :
    countTD50 (lintNonBullet lineNo (renderKv (k, v)) (trim (renderKv (k, v))) restLines st).errors =
      countTD50 st.errors + dupCount st.idSet (idValsTask [(k, v)]) ∧
    (lintNonBullet lineNo (renderKv (k, v)) (trim (renderKv (k, v))) restLines st).idSet =
      addNew st.idSet (idValsTask [(k, v)]) ∧
    (lintNonBullet lineNo (renderKv (k, v)) (trim (renderKv (k, v))) restLines st).inside = st.inside ∧
    (lintNonBullet lineNo (renderKv (k, v)) (trim (renderKv (k, v))) restLines st).prevRev = st.prevRev := by
  have hmd := renderKv_trim_not_md hk hv
  have hkv := renderKv_kvMatch hk hv
  have hind := renderKv_indent (v := v) hk
  rcases hv with ⟨hne, hnws, hnp⟩
  have htv : trim v = v := trim_eq_self_of_no_ws hne hnws
  have hsp : (v.any isWsCh) = false := by
    rw [List.any_eq_false]
    intro c hc
    simp [notWs_of_all hnws hc]
  rw [lintNonBullet, if_neg (by simp [hmd]), hfind]
  dsimp only
  rw [hbi, hind, if_neg (by norm_num), hkv]
  dsimp only
  rw [if_neg hnp, if_neg (by simp [htv, hne]), hsp]
  simp only [Bool.false_and, Bool.if_false_left]
  by_cases hid : k = S "id"
  · rw [if_pos hid]
    have hvals : idValsTask [(k, v)] = [v] := by simp [idValsTask, hid]
    rw [hvals]
    by_cases hct : st.idSet.contains v = true
    · rw [if_pos hct]
      dsimp only
      refine ⟨?_, ?_, rfl, rfl⟩
      · rw [countTD50_append, dupCount, if_pos hct, dupCount]
        simp [countTD50, List.filter_cons, isTD50]
      · rw [addNew, if_pos hct, addNew]
    · rw [if_neg hct]
      dsimp only
      refine ⟨?_, ?_, rfl, rfl⟩
      · rw [dupCount, if_neg hct, dupCount]
        simp
      · rw [addNew, if_neg hct, addNew]
  · rw [if_neg hid]
    have hvals : idValsTask [(k, v)] = [] := by simp [idValsTask, hid]
    rw [hvals]
    dsimp only
    refine ⟨?_, ?_, rfl, rfl⟩
    · rw [dupCount]
      simp
    · rw [addNew]

/-- Duplicate-id hits compose over concatenated value lists. -/
theorem dupCount_append : ∀ (a : List Str) (seen b : List Str),
    dupCount seen (a ++ b) = dupCount seen a + dupCount (addNew seen a) b
  | [], seen, b => by simp [dupCount, addNew]
  | v :: vs, seen, b => by
    rw [List.cons_append, dupCount, dupCount, addNew]
    by_cases h : seen.contains v = true
    · rw [if_pos h, if_pos h, if_pos h, dupCount_append vs seen b]
      omega
    · rw [if_neg h, if_neg h, if_neg h, dupCount_append vs (seen ++ [v]) b]

/-- The id set after scanning concatenated value lists. -/
theorem addNew_append : ∀ (a : List Str) (seen b : List Str),
    addNew seen (a ++ b) = addNew (addNew seen a) b
  | [], seen, b => by simp [addNew]
  | v :: vs, seen, b => by
    rw [List.cons_append, addNew, addNew]
    by_cases h : seen.contains v = true
    · rw [if_pos h, if_pos h, addNew_append vs seen b]
    · rw [if_neg h, if_neg h, addNew_append vs (seen ++ [v]) b]

/-- The id values of a pair list split at the first pair. -/
theorem idValsTask_cons (kv : Str × Str) (kvs : List (Str × Str)) :
    idValsTask (kv :: kvs) = idValsTask [kv] ++ idValsTask kvs := by
  simp only [idValsTask, List.filter_cons]
  split <;> simp

/-- A processed line that does not look like a bullet is skipped by the
preceding-bullet search. -/
theorem findPrecedingBullet_cons_skip {l : Str}
    (h : startsWithCh (trim l) '-' = false) (prevRev : List Str) :
    findPrecedingBullet (l :: prevRev) = findPrecedingBullet prevRev := by
  simp [findPrecedingBullet, List.find?_cons, h]

/-- A processed bullet line is found immediately by the preceding-bullet
search. -/
theorem findPrecedingBullet_cons_hit {l : Str}
    (h : startsWithCh (trim l) '-' = true) (prevRev : List Str) :
    findPrecedingBullet (l :: prevRev) = some l := by
  simp [findPrecedingBullet, List.find?_cons, h]

/-- Scanning the rendered continuation lines of a task: the duplicate-id
errors and the id set evolve exactly by the id values of the pairs. -/
theorem lintLoop_kvs : ∀ (kvs : List (Str × Str)),
    (∀ kv ∈ kvs, GoodKeyP kv.1 ∧ GoodValP kv.2) →
    ∀ (lineNo : Nat) (rest : List Str) (st : LintSt) (bl : Str),
      st.inside = none →
      findPrecedingBullet st.prevRev = some bl →
      indentOf (replaceTabs bl) = 0 →
      ∃ st',
        lintLoop 2 lineNo (kvs.map renderKv ++ rest) st =
          lintLoop 2 (lineNo + kvs.length) rest st' ∧
        countTD50 st'.errors = countTD50 st.errors + dupCount st.idSet (idValsTask kvs) ∧
        st'.idSet = addNew st.idSet (idValsTask kvs) ∧
        st'.inside = none
  | [], _, lineNo, rest, st, bl, hin, _, _ =>
    ⟨st, by simp, by simp [idValsTask, dupCount], by simp [idValsTask, addNew], hin⟩
  | kv :: kvs, hkvs, lineNo, rest, st, bl, hin, hfind, hbi => by
    obtain ⟨k, v⟩ := kv
    obtain ⟨hk, hv⟩ := hkvs (k, v) (List.mem_cons_self _ _)
    have hnt := renderKv_noTab hk hv
    have htr := renderKv_trim hk hv
    have hnd := renderKv_trim_not_dash hk hv
    have htne : trim (renderKv (k, v)) ≠ [] := by
      rw [htr]
      rcases k with _ | ⟨kc, kcs⟩
      · exact hk.elim
      · simp
    have hnb := lintNonBullet_kv lineNo hk hv (kvs.map renderKv ++ rest) st hfind hbi
    rw [List.map_cons, List.cons_append, lintLoop, hin]
    dsimp only
    rw [hnt, if_neg (by simp [htne]), hnd]
    dsimp only
    rw [if_neg htne, if_neg Bool.false_ne_true]
    set st2 := lintNonBullet lineNo (renderKv (k, v)) (trim (renderKv (k, v)))
      (kvs.map renderKv ++ rest) st with hst2
    have hin2 : ({ st2 with prevRev := renderKv (k, v) :: st2.prevRev }).inside = none := by
      show st2.inside = none
      rw [hnb.2.2.1, hin]
    have hfind2 :
        findPrecedingBullet ({ st2 with prevRev := renderKv (k, v) :: st2.prevRev }).prevRev =
          some bl := by
      show findPrecedingBullet (renderKv (k, v) :: st2.prevRev) = some bl
      rw [findPrecedingBullet_cons_skip hnd, hnb.2.2.2, hfind]
    obtain ⟨st', h1, h2, h3, h4⟩ :=
      lintLoop_kvs kvs (fun kv hkv => hkvs kv (List.mem_cons_of_mem _ hkv)) (lineNo + 1)
        rest { st2 with prevRev := renderKv (k, v) :: st2.prevRev } bl hin2 hfind2 hbi
    refine ⟨st', ?_, ?_, ?_, h4⟩
    · have hnum : lineNo + 1 + kvs.length = lineNo + (kvs.length + 1) := by omega
      rw [h1, List.length_cons, hnum]
    · have h2x : countTD50 st'.errors = countTD50 st2.errors + dupCount st2.idSet (idValsTask kvs) := h2
      have hnb1 : countTD50 st2.errors = countTD50 st.errors + dupCount st.idSet (idValsTask [(k, v)]) := hnb.1
      have hnb2 : st2.idSet = addNew st.idSet (idValsTask [(k, v)]) := hnb.2.1
      rw [h2x, hnb1, hnb2, idValsTask_cons (k, v) kvs,
        dupCount_append (idValsTask [(k, v)]) st.idSet (idValsTask kvs)]
      omega
    · have h3x : st'.idSet = addNew st2.idSet (idValsTask kvs) := h3
      have hnb2 : st2.idSet = addNew st.idSet (idValsTask [(k, v)]) := hnb.2.1
      rw [h3x, hnb2, idValsTask_cons (k, v) kvs, addNew_append]

/-- Scanning a full rendered task: the bullet line contributes no
duplicate-id error and the continuation lines contribute exactly the id
values of the task's pairs. -/
theorem lintLoop_task (content : Str) (kvs : List (Str × Str))
    (ht : GoodTaskP (content, kvs)) (lineNo : Nat) (rest : List Str)
    (st : LintSt) (hin : st.inside = none) :
    ∃ st',
      lintLoop 2 lineNo (renderTask (content, kvs) ++ rest) st =
        lintLoop 2 (lineNo + (renderTask (content, kvs)).length) rest st' ∧
      countTD50 st'.errors = countTD50 st.errors + dupCount st.idSet (idValsTask kvs) ∧
      st'.idSet = addNew st.idSet (idValsTask kvs) ∧
      st'.inside = none := by
  obtain ⟨hc, hkvs⟩ := ht
  have hc' : GoodContentP content := hc
  have hnt := renderBullet_noTab hc'
  have htrim := renderBullet_trim hc'
  rw [renderTask, List.cons_append, lintLoop, hin]
  dsimp only
  have hsw : startsWithCh ('-' :: ' ' :: content) '-' = true := rfl
  rw [hnt, htrim, if_neg Bool.false_ne_true, if_neg (by simp : ¬('-' :: ' ' :: content = [])),
    if_pos hsw]
  set st2 := lintBullet 2 lineNo ('-' :: ' ' :: content) ('-' :: ' ' :: content) st with hst2
  have hbinv := lintBullet_inv 2 lineNo ('-' :: ' ' :: content) ('-' :: ' ' :: content) st
  have hin2 : ({ st2 with prevRev := ('-' :: ' ' :: content) :: st2.prevRev }).inside = none := by
    show st2.inside = none
    rw [hbinv.2.2.1, hin]
  have hfind2 :
      findPrecedingBullet ({ st2 with prevRev := ('-' :: ' ' :: content) :: st2.prevRev }).prevRev =
        some ('-' :: ' ' :: content) := by
    show findPrecedingBullet (('-' :: ' ' :: content) :: st2.prevRev) = some ('-' :: ' ' :: content)
    exact findPrecedingBullet_cons_hit (by rw [htrim]; rfl) _
  have hbi2 : indentOf (replaceTabs ('-' :: ' ' :: content)) = 0 := by
    rw [hnt, renderBullet_indent]
  obtain ⟨st', h1, h2, h3, h4⟩ :=
    lintLoop_kvs kvs (fun kv hkv => hkvs kv hkv) (lineNo + 1) rest
      { st2 with prevRev := ('-' :: ' ' :: content) :: st2.prevRev }
      ('-' :: ' ' :: content) hin2 hfind2 hbi2
  refine ⟨st', ?_, ?_, ?_, h4⟩
  · have hnum : lineNo + 1 + kvs.length = lineNo + (kvs.length + 1) := by omega
    rw [h1]
    simp only [renderTask, List.length_cons, List.length_map]
    rw [hnum]
  · have h2x : countTD50 st'.errors = countTD50 st2.errors + dupCount st2.idSet (idValsTask kvs) := h2
    rw [h2x, hbinv.1, hbinv.2.1]
  · have h3x : st'.idSet = addNew st2.idSet (idValsTask kvs) := h3
    rw [h3x, hbinv.2.1]

/-- Scanning a whole rendered document: the number of duplicate-id errors is
exactly the number of duplicate hits of the document's explicit id values on
the running id set. -/
theorem lintLoop_doc : ∀ (doc : List (Str × List (Str × Str))), GoodDocP doc →
    ∀ (lineNo : Nat) (st : LintSt), st.inside = none →
      countTD50 (lintLoop 2 lineNo (renderDoc doc) st).errors =
        countTD50 st.errors + dupCount st.idSet (idValsDoc doc)
  | [], _, lineNo, st, hin => by
    simp [renderDoc, lintLoop, idValsDoc, dupCount]
  | t :: ds, hdoc, lineNo, st, hin => by
    obtain ⟨content, kvs⟩ := t
    have ht : GoodTaskP (content, kvs) := hdoc _ (List.mem_cons_self _ _)
    obtain ⟨st', h1, h2, h3, h4⟩ := lintLoop_task content kvs ht lineNo (renderDoc ds) st hin
    have hrd : renderDoc ((content, kvs) :: ds) = renderTask (content, kvs) ++ renderDoc ds := by
      simp [renderDoc]
    have hiv : idValsDoc ((content, kvs) :: ds) = idValsTask kvs ++ idValsDoc ds := by
      simp [idValsDoc]
    rw [hrd, h1, lintLoop_doc ds (fun u hu => hdoc u (List.mem_cons_of_mem _ hu)) _ st' h4,
      h2, h3, hiv, dupCount_append]
    omega

/-- The duplicate count is zero exactly when the values are distinct and
disjoint from the starting id set. -/
theorem dupCount_eq_zero_iff : ∀ (vals seen : List Str),
    dupCount seen vals = 0 ↔ (vals.Nodup ∧ ∀ v ∈ vals, v ∉ seen)
  | [], seen => by simp [dupCount]
  | v :: vs, seen => by
    rw [dupCount]
    by_cases h : seen.contains v = true
    · rw [if_pos h]
      have hv : v ∈ seen := by simpa using h
      constructor
      · intro h0
        omega
      · rintro ⟨-, hall⟩
        exact absurd hv (hall v (List.mem_cons_self _ _))
    · rw [if_neg h]
      have hv : v ∉ seen := by simpa using h
      rw [dupCount_eq_zero_iff vs (seen ++ [v])]
      constructor
      · rintro ⟨hnd, hall⟩
        have hvv : v ∉ vs := fun hmem => (hall v hmem) (by simp)
        refine ⟨List.nodup_cons.mpr ⟨hvv, hnd⟩, ?_⟩
        intro u hu
        rcases List.mem_cons.mp hu with hu' | hu'
        · rw [hu']; exact hv
        · intro hus
          exact (hall u hu') (by simp [hus])
      · rintro ⟨hnodup, hall⟩
        obtain ⟨hvv, hnd⟩ := List.nodup_cons.mp hnodup
        refine ⟨hnd, ?_⟩
        intro u hu hum
        rcases List.mem_append.mp hum with h1 | h1
        · exact (hall u (List.mem_cons_of_mem _ hu)) h1
        · rw [List.mem_singleton.mp h1] at hu
          exact hvv hu

/-- C6 (amended).  Over well-formed rendered documents -- tasks given as a
bullet line plus indented `key: value` continuation lines, which is where
the linter's duplicate-id tracking lives -- the linter reports a
duplicate-id (TD050) error exactly when some explicit continuation-line id
value occurs twice; when all the id values are distinct, no duplicate-id
error is reported. -/
theorem c6_duplicate_ids_continuation (doc : List (Str × List (Str × Str)))
    (hdoc : GoodDocP doc) :
    (lintLines (renderDoc doc) 2).1.filter isTD50 ≠ [] ↔ ¬ (idValsDoc doc).Nodup := by
  have hloop := lintLoop_doc doc hdoc 0 ⟨[], [], [], [], none, []⟩ rfl
  have key : (lintLines (renderDoc doc) 2).1.filter isTD50 = [] ↔ (idValsDoc doc).Nodup := by
    rw [lintLines]
    dsimp only
    rw [if_neg (by norm_num : ¬((2 : Nat) = 0))]
    constructor
    · intro hfe
      have h0 : countTD50 (lintLoop 2 0 (renderDoc doc) ⟨[], [], [], [], none, []⟩).errors = 0 := by
        rw [countTD50, hfe]
        rfl
      rw [hloop] at h0
      have h1 : dupCount [] (idValsDoc doc) = 0 := by
        have h0x : countTD50 ([] : List LintMsg) + dupCount ([] : List Str) (idValsDoc doc) = 0 := h0
        simpa [countTD50] using h0x
      exact ((dupCount_eq_zero_iff _ _).mp h1).1
    · intro hnd
      have h1 : dupCount [] (idValsDoc doc) = 0 :=
        (dupCount_eq_zero_iff _ _).mpr ⟨hnd, by simp⟩
      have h0 : countTD50 (lintLoop 2 0 (renderDoc doc) ⟨[], [], [], [], none, []⟩).errors = 0 := by
        rw [hloop, h1]
        rfl
      rw [countTD50] at h0
      exact List.length_eq_zero.mp h0
  exact not_congr key

/-- C6 witness: the amended statement applied to the concrete two-task
document whose continuation lines repeat the id `abc123`. -/
theorem c6_duplicate_ids_continuation_witness :
    GoodDocP c6WitnessDoc ∧
    ((lintLines (renderDoc c6WitnessDoc) 2).1.filter isTD50 ≠ [] ↔
      ¬ (idValsDoc c6WitnessDoc).Nodup) := by
  have hgood : GoodDocP c6WitnessDoc := by
    intro t ht
    simp only [c6WitnessDoc, List.mem_cons, List.not_mem_nil, or_false] at ht
    rcases ht with h | h <;> rw [h] <;>
      exact ⟨⟨by decide, by decide, by decide, by decide⟩, by
        intro kv hkv
        rw [List.mem_singleton.mp hkv]
        exact ⟨⟨by decide, by decide⟩, by decide, by decide, by decide⟩⟩
  exact ⟨hgood, c6_duplicate_ids_continuation c6WitnessDoc hgood⟩

/-- C9 (amended).  On the stable-token single-task file
`- "T" weight: 10 note: hello id: a1`, the UPDATE
`SET priority = 'A' WHERE id = 'a1'` succeeds (for any id-digest function:
the explicit id means the digest is never consulted), writes
`- A "T" weight: 10 note: hello id: a1` into the TODO section, and the
written file re-parses to a node with the same id `a1`, the priority now
`"A"`, and the title, weight and note fields unchanged -- with no other data
fields appearing.  Together with the counterexample this shows Scenario 6
holds exactly for fields whose serialized value tokens re-parse to the same
value. -/
theorem c9_update_priority_preserves (computeId : Identity → Str) :
    lintClean c9GoodLines = true ∧
    runUpdate computeId [⟨S "priority", S "A"⟩] [S "id", S "=", S "a1"] c9GoodLines =
      .ok [S "## TODO", S "- A \"T\" weight: 10 note: hello id: a1", S ""] ∧
    ((parseLinesToTree computeId c9GoodLines).map
        (fun t => (dget t.data (S "id"), dget t.data (S "title"), dget t.data (S "priority"),
          dget t.data (S "weight"), dget t.data (S "note"), t.data.map Prod.fst))) =
      [(some (.str (S "a1")), some (.str (S "T")), none, some (.num 10),
        some (.str (S "hello")), [S "title", S "weight", S "note", S "id"])] ∧
    ((parseLinesToTree computeId
        [S "## TODO", S "- A \"T\" weight: 10 note: hello id: a1", S ""]).map
        (fun t => (dget t.data (S "id"), dget t.data (S "title"), dget t.data (S "priority"),
          dget t.data (S "weight"), dget t.data (S "note"), t.data.map Prod.fst))) =
      [(some (.str (S "a1")), some (.str (S "T")), some (.str (S "A")), some (.num 10),
        some (.str (S "hello")), [S "priority", S "title", S "weight", S "note", S "id"])] :=
  ⟨rfl, rfl, rfl, rfl⟩

end TaskMd

